import Mathlib

/-!
Verification of the background traffic recorder (background.ts).

The development shallowly embeds the source file:

* JavaScript objects used as string-keyed maps (header maps, the pending
  request table) become association lists with JS object-spread semantics:
  assigning an existing key overwrites it in place, a fresh key is appended.
* A log record becomes the structure `Rec`; object fields that the source
  only sets on some paths become `Option` fields (`none` = key absent).
* The storage queue (`isSaving` / `saveQueue` / `processQueue` / `saveLog`)
  becomes a small-step transition system `QStep` whose scheduler may fire the
  outstanding asynchronous storage callbacks in any order.
* The webRequest listeners become state-transforming functions over the
  correlator state (pending table, save queue, scheduled deletions).
* The declarativeNetRequest session-rule updates become a pure function on
  the active rule list.
* A second, reference-carrying model (`HState`) tracks the JS heap cells of
  the header-map objects, to settle the aliasing/frame claim about snapshots.
-/

set_option maxHeartbeats 1000000

namespace XApi

/-- Association list with JS object semantics: `aset` overwrites an existing
key in place, otherwise appends; models `obj[k] = v`. -/
def aset {α : Type} (t : List (String × α)) (k : String) (v : α) :
    List (String × α) :=
  if t.any (fun p => p.1 == k) then
    t.map (fun p => if p.1 == k then (k, v) else p)
  else
    t ++ [(k, v)]

/-- Key lookup, models `obj[k]` (first binding; `aset` keeps keys unique
when the map is built only through `aset`). -/
def aget {α : Type} (t : List (String × α)) (k : String) : Option α :=
  (t.find? (fun p => p.1 == k)).map (fun p => p.2)

/-- Key removal, models `delete obj[k]`. -/
def aerase {α : Type} (t : List (String × α)) (k : String) :
    List (String × α) :=
  t.filter (fun p => !(p.1 == k))

/-- A header map object: header name to value. -/
abbrev HMap := List (String × String)

/-- JS object spread of two maps, keys of `b` override keys of `a`;
models the object literal that spreads `a` and then `b`. -/
def hmerge (a b : HMap) : HMap :=
  b.foldl (fun m p => aset m p.1 p.2) a

/-- Builds the `headers` object of the onBeforeSendHeaders and
onHeadersReceived listeners: for each array element the listener runs the
assignment of `h.value` (or the empty string when the value is missing)
under the key `h.name`. -/
def toHMap (hs : List (String × Option String)) : HMap :=
  hs.foldl (fun m p => aset m p.1 (p.2.getD "")) []

/-! ## The log record data model -/

/-- Capacity bound of the durable log list (constant MAX_LOGS). -/
def MAX_LOGS : Nat := 100

/-- A decoded request body: either text (the UTF-8 decode of the raw bytes,
or the binary sentinel) or the structured formData object. -/
inductive BodyVal where
  | text (s : String)
  | form (fd : List (String × List String))
deriving Repr, DecidableEq

/-- A request log record. `getOrCreatePending` always creates the fields
id, status, timestamp, requestHeaders and responseHeaders, so they are
plain fields; the remaining fields are only assigned by some listeners and
are `Option` (`none` models the key being absent from the JS object). -/
structure Rec where
  id : String
  status : Nat
  timestamp : Nat
  requestHeaders : HMap
  responseHeaders : HMap
  url : Option String := none
  method : Option String := none
  rtype : Option String := none
  requestBody : Option BodyVal := none
  error : Option String := none
deriving Repr, DecidableEq

/-- JS object spread of one stored log over an update
(`currentLogs[idx] = { ...currentLogs[idx], ...logToSave }` in
`processQueue`): every field present on `upd` overrides the stored one;
the five always-present fields are overridden unconditionally, an `Option`
field only when it is `some`. -/
def mergeRecord (old upd : Rec) : Rec where
  id := upd.id
  status := upd.status
  timestamp := upd.timestamp
  requestHeaders := upd.requestHeaders
  responseHeaders := upd.responseHeaders
  url := upd.url.orElse fun _ => old.url
  method := upd.method.orElse fun _ => old.method
  rtype := upd.rtype.orElse fun _ => old.rtype
  requestBody := upd.requestBody.orElse fun _ => old.requestBody
  error := upd.error.orElse fun _ => old.error

/-- The body of the `chrome.storage.local.get` callback in `processQueue`:
looks up the dequeued record's id in the current logs; merges into the
found entry in place, otherwise prepends and truncates to `MAX_LOGS` —
unless the fresh record has no url, in which case nothing is written
(`none`). -/
def computeNewLogs (currentLogs : List Rec) (logToSave : Rec) :
    Option (List Rec) :=
  match currentLogs.findIdx? (fun l => l.id == logToSave.id) with
  | some idx =>
      some (currentLogs.set idx
        (mergeRecord (currentLogs.getD idx logToSave) logToSave))
  | none =>
      if logToSave.url = none then none
      else some ((logToSave :: currentLogs).take MAX_LOGS)

/-- The effect of one `processQueue` pass on the stored logs (a dropped
record leaves them unchanged). -/
def applyLog (currentLogs : List Rec) (logToSave : Rec) : List Rec :=
  (computeNewLogs currentLogs logToSave).getD currentLogs

/-- Draining a saved-snapshot queue through the serializer applies each
snapshot to the stored logs in FIFO order. -/
def drain (logs : List Rec) (q : List Rec) : List Rec :=
  q.foldl applyLog logs

/-! ## The storage queue as a transition system

`processQueue` runs synchronously up to the `chrome.storage.local.get`
call, whose callback ends with a `chrome.storage.local.set` call; both
callbacks fire asynchronously.  An outstanding callback is an `Op`; the
scheduler (`QStep`) may fire any outstanding callback at any time and may
interleave new `saveLog` calls.  The fields `enqueued` and `processed`
are history variables recording the order in which records were pushed by
`saveLog` and the order in which their read-merge-write passes finished. -/

/-- An outstanding asynchronous storage callback. -/
inductive Op where
  | get (r : Rec)
  | set (nl : List Rec) (r : Rec)
deriving Repr, DecidableEq

/-- The record whose pass an outstanding callback belongs to. -/
def opRec : Op → Rec
  | Op.get r => r
  | Op.set _ r => r

structure QState where
  isSaving : Bool
  saveQueue : List Rec
  logs : List Rec
  ops : List Op
  enqueued : List Rec
  processed : List Rec
deriving Repr, DecidableEq

/-- The synchronous part of `processQueue`: returns at once when a pass is
already running or the queue is empty, otherwise sets `isSaving`, shifts
the oldest queued record and issues the storage read for it. -/
def procQ (s : QState) : QState :=
  match s.isSaving, s.saveQueue with
  | true, _ => s
  | false, [] => s
  | false, r :: rest =>
      { s with isSaving := true, saveQueue := rest,
               ops := s.ops ++ [Op.get r] }

/-- `saveLog`: pushes a copy of the record onto the queue and triggers
`processQueue`. -/
def saveLogF (s : QState) (r : Rec) : QState :=
  procQ { s with saveQueue := s.saveQueue ++ [r],
                 enqueued := s.enqueued ++ [r] }

/-- The storage-read callback for record `r`: computes the new log list
from the logs current at fire time; a fresh record without a url is
dropped (clear `isSaving`, continue with the queue), otherwise the
storage write is issued. -/
def getCb (s : QState) (r : Rec) : QState :=
  match computeNewLogs s.logs r with
  | some nl => { s with ops := s.ops ++ [Op.set nl r] }
  | none => procQ { s with isSaving := false,
                           processed := s.processed ++ [r] }

/-- The storage-write callback: the write takes effect, `isSaving` is
cleared and the next queued record is processed if any. -/
def setCb (s : QState) (nl : List Rec) (r : Rec) : QState :=
  procQ { s with logs := nl, isSaving := false,
                 processed := s.processed ++ [r] }

/-- One scheduler step: a `saveLog` call, or firing any outstanding
storage callback (chosen at an arbitrary position in `ops`). -/
inductive QStep : QState → QState → Prop where
  | save (s : QState) (r : Rec) : QStep s (saveLogF s r)
  | get (s : QState) (l1 l2 : List Op) (r : Rec)
      (h : s.ops = l1 ++ Op.get r :: l2) :
      QStep s (getCb { s with ops := l1 ++ l2 } r)
  | set (s : QState) (l1 l2 : List Op) (nl : List Rec) (r : Rec)
      (h : s.ops = l1 ++ Op.set nl r :: l2) :
      QStep s (setCb { s with ops := l1 ++ l2 } nl r)

def QReach (s0 s : QState) : Prop := Relation.ReflTransGen QStep s0 s

/-- State right after the `onInstalled` initialisation wrote `logs0`. -/
def initQ (logs0 : List Rec) : QState :=
  { isSaving := false, saveQueue := [], logs := logs0, ops := [],
    enqueued := [], processed := [] }

/-- The serializer invariant: at most one outstanding storage callback,
`isSaving` set exactly while one is outstanding, completed passes followed
by the in-flight record and the still-queued records reproduce the enqueue
order, and the stored logs stay within capacity (including the logs a
pending write is about to install). -/
def QInv (s : QState) : Prop :=
  s.ops.length ≤ 1 ∧
  s.isSaving = !s.ops.isEmpty ∧
  s.processed ++ s.ops.map opRec ++ s.saveQueue = s.enqueued ∧
  s.logs.length ≤ MAX_LOGS ∧
  ∀ nl r, Op.set nl r ∈ s.ops → nl.length ≤ MAX_LOGS

/-- A concrete record used to instantiate the theorems with hypotheses. -/
def sampleRec : Rec where
  id := "7"
  status := 0
  timestamp := 0
  requestHeaders := []
  responseHeaders := []
  url := some "https://api.x/y"
  method := some "GET"

/-! ## The event correlator

The five webRequest listeners become functions from the correlator state
(pending table, snapshot queue of `saveLog` calls, scheduled deferred
deletions) to a new state.  Each listener's asynchronous body (after the
`chrome.storage.local.get` of `isRecording`, where present) is atomic on
the JS event loop, so one listener invocation is one transition; the
`recording` argument is the value its toggle read returns. -/

/-- Environment fixed by the host: the extension's own id
(`chrome.runtime.id`) and the outcome of `TextDecoder.decode` on a given
byte buffer (an exception is `Except.error`). -/
structure Env where
  extId : String
  dec : List Nat → Except Unit String

def listIsPrefixOfChars : List Char → List Char → Bool
  | [], _ => true
  | _ :: _, [] => false
  | c :: cs, d :: ds => c == d && listIsPrefixOfChars cs ds

def listContainsSeq (sub : List Char) : List Char → Bool
  | [] => listIsPrefixOfChars sub []
  | c :: cs => listIsPrefixOfChars sub (c :: cs) || listContainsSeq sub cs

/-- JS `String.startsWith`. -/
def strStartsWith (s p : String) : Bool :=
  listIsPrefixOfChars p.toList s.toList

/-- JS `String.includes`. -/
def strContains (s sub : String) : Bool :=
  listContainsSeq sub.toList s.toList

/-- The `isExtensionRequest` filter. -/
def isExtensionRequest (extId : String) (initiator : Option String)
    (url : String) : Bool :=
  (match initiator with
   | some i => strContains i extId
   | none => false) ||
  strStartsWith url "chrome-extension://" ||
  strStartsWith url "data:" ||
  strStartsWith url "blob:"

/-- The `isApiRequest` filter: only resource type xmlhttprequest. -/
def isApiRequest (rtype : String) : Bool :=
  rtype == "xmlhttprequest"

/-- One raw element of `details.requestBody.raw`. -/
structure RawElem where
  bytes : List Nat
deriving Repr, DecidableEq

/-- `details.requestBody`. -/
structure BodyInfo where
  raw : Option (List RawElem) := none
  formData : Option (List (String × List String)) := none
deriving Repr, DecidableEq

structure BeginDetails where
  requestId : String
  url : String
  method : String
  rtype : String
  initiator : Option String := none
  requestBody : Option BodyInfo := none
deriving Repr, DecidableEq

structure HeadersDetails where
  requestId : String
  url : String
  rtype : String
  initiator : Option String := none
  headers : List (String × Option String) := []
deriving Repr, DecidableEq

structure EndDetails where
  requestId : String
  rtype : String
  statusCode : Nat := 0
  error : String := ""
deriving Repr, DecidableEq

/-- Correlator state: the `pendingRequests` table, the records pushed by
`saveLog` (in push order), and the ids whose table deletion has been
deferred by `setTimeout` and not yet fired. -/
structure CState where
  pending : List (String × Rec)
  queue : List Rec
  scheduled : List String
deriving Repr, DecidableEq

/-- `getOrCreatePending`: returns the table entry, creating the default
one (status 0, current time, empty header maps) if absent. -/
def getOrCreatePending (now : Nat) (t : List (String × Rec))
    (requestId : String) : Rec :=
  match aget t requestId with
  | some e => e
  | none =>
      { id := requestId, status := 0, timestamp := now,
        requestHeaders := [], responseHeaders := [] }

/-- The body-capture block of the onBeforeRequest listener: a first raw
chunk is UTF-8 decoded, a decode exception stores the binary sentinel, a
formData body is stored as-is. -/
def captureBody (dec : List Nat → Except Unit String) (e : Rec)
    (rb : Option BodyInfo) : Rec :=
  match rb with
  | none => e
  | some info =>
      match info.raw with
      | some (elem :: _) =>
          match dec elem.bytes with
          | Except.ok s => { e with requestBody := some (BodyVal.text s) }
          | Except.error _ =>
              { e with requestBody := some (BodyVal.text "[Binary Data]") }
      | _ =>
          match info.formData with
          | some fd => { e with requestBody := some (BodyVal.form fd) }
          | none => e

/-- The onBeforeRequest listener: synchronous extension/ping/API filter,
then the asynchronous recording check, then mutate the pending entry, then
`saveLog` a snapshot of it. -/
def onBeforeRequestH (env : Env) (recording : Bool) (now : Nat)
    (st : CState) (d : BeginDetails) : CState :=
  if isExtensionRequest env.extId d.initiator d.url || d.rtype == "ping" ||
      !isApiRequest d.rtype then st
  else if !recording then st
  else
    let e0 := getOrCreatePending now st.pending d.requestId
    let e1 := { e0 with url := some d.url, method := some d.method,
                        rtype := some d.rtype }
    let e2 := captureBody env.dec e1 d.requestBody
    { pending := aset st.pending d.requestId e2,
      queue := st.queue ++ [e2], scheduled := st.scheduled }

/-- The onBeforeSendHeaders listener: merges the sent headers key-wise
into the entry's requestHeaders map (a fresh map object). -/
def onBeforeSendHeadersH (env : Env) (recording : Bool) (now : Nat)
    (st : CState) (d : HeadersDetails) : CState :=
  if isExtensionRequest env.extId d.initiator d.url ||
      !isApiRequest d.rtype then st
  else if !recording then st
  else
    let e0 := getOrCreatePending now st.pending d.requestId
    let e1 := { e0 with
      requestHeaders := hmerge e0.requestHeaders (toHMap d.headers) }
    { pending := aset st.pending d.requestId e1,
      queue := st.queue ++ [e1], scheduled := st.scheduled }

/-- The onHeadersReceived listener: merges the received headers key-wise
into the entry's responseHeaders map (a fresh map object). -/
def onHeadersReceivedH (env : Env) (recording : Bool) (now : Nat)
    (st : CState) (d : HeadersDetails) : CState :=
  if isExtensionRequest env.extId d.initiator d.url ||
      !isApiRequest d.rtype then st
  else if !recording then st
  else
    let e0 := getOrCreatePending now st.pending d.requestId
    let e1 := { e0 with
      responseHeaders := hmerge e0.responseHeaders (toHMap d.headers) }
    { pending := aset st.pending d.requestId e1,
      queue := st.queue ++ [e1], scheduled := st.scheduled }

/-- The onCompleted listener: fires only when a pending entry exists and
the request is an API request; sets the final status, saves a snapshot
and defers the table deletion by the grace `setTimeout`.  It performs no
read of the recording toggle. -/
def onCompletedH (st : CState) (d : EndDetails) : CState :=
  match aget st.pending d.requestId with
  | none => st
  | some e =>
      if isApiRequest d.rtype then
        let e1 := { e with status := d.statusCode }
        { pending := aset st.pending d.requestId e1,
          queue := st.queue ++ [e1],
          scheduled := st.scheduled ++ [d.requestId] }
      else st

/-- The onErrorOccurred listener: fires only when a pending entry exists
and the request is an API request; records status 0 plus the error text,
saves a snapshot, and deletes the table entry immediately (no
setTimeout).  It performs no read of the recording toggle. -/
def onErrorOccurredH (st : CState) (d : EndDetails) : CState :=
  match aget st.pending d.requestId with
  | none => st
  | some e =>
      if isApiRequest d.rtype then
        let e1 := { e with status := 0, error := some d.error }
        { pending := aerase st.pending d.requestId,
          queue := st.queue ++ [e1],
          scheduled := st.scheduled }
      else st

/-- A lifecycle event together with its details object. -/
inductive EventDetails where
  | begin (d : BeginDetails)
  | reqHeaders (d : HeadersDetails)
  | respHeaders (d : HeadersDetails)
  | completed (d : EndDetails)
  | errored (d : EndDetails)
deriving Repr, DecidableEq

/-- Dispatch of one lifecycle event to its listener. -/
def handleEvent (env : Env) (recording : Bool) (now : Nat) (st : CState) :
    EventDetails → CState
  | EventDetails.begin d => onBeforeRequestH env recording now st d
  | EventDetails.reqHeaders d => onBeforeSendHeadersH env recording now st d
  | EventDetails.respHeaders d => onHeadersReceivedH env recording now st d
  | EventDetails.completed d => onCompletedH st d
  | EventDetails.errored d => onErrorOccurredH st d

/-- The mutated entry produced by a passing onBeforeRequest invocation:
the table entry (created if absent) with url, method and type set and the
body captured. -/
def beginEntry (env : Env) (now : Nat) (st : CState) (d : BeginDetails) :
    Rec :=
  captureBody env.dec
    { getOrCreatePending now st.pending d.requestId with
        url := some d.url, method := some d.method, rtype := some d.rtype }
    d.requestBody

/-- A concrete host environment whose decoder always succeeds. -/
def sampleEnv : Env where
  extId := "extension-id"
  dec := fun _ => Except.ok ""

/-- A concrete host environment whose decoder always throws. -/
def binaryEnv : Env where
  extId := "extension-id"
  dec := fun _ => Except.error ()

/-- A concrete in-flight pending entry for request id 7. -/
def pendingRec : Rec where
  id := "7"
  status := 0
  timestamp := 0
  requestHeaders := []
  responseHeaders := []
  url := some "https://api.x/y"
  method := some "GET"
  rtype := some "xmlhttprequest"

/-- A correlator state holding the pending entry for id 7. -/
def aliveState : CState where
  pending := [("7", pendingRec)]
  queue := []
  scheduled := []

/-- An empty correlator state. -/
def emptyCState : CState where
  pending := []
  queue := []
  scheduled := []

def completedEnd : EndDetails where
  requestId := "7"
  rtype := "xmlhttprequest"
  statusCode := 200

def erroredEnd : EndDetails where
  requestId := "7"
  rtype := "xmlhttprequest"
  statusCode := 0
  error := "net::ERR_FAILED"

def lateHeaders : HeadersDetails where
  requestId := "7"
  url := "https://api.x/y"
  rtype := "xmlhttprequest"
  headers := [("Authorization", some "Bearer t")]

/-- The pending entry after a completed event set its final status. -/
def finalizedRec : Rec := { pendingRec with status := 200 }

/-- The begin event of the worked example in the spec. -/
def beginD7 : BeginDetails where
  requestId := "7"
  url := "https://api.x/y"
  method := "GET"
  rtype := "xmlhttprequest"

def authHeaders : HeadersDetails where
  requestId := "7"
  url := "https://api.x/y"
  rtype := "xmlhttprequest"
  headers := [("Authorization", some "Bearer t")]

def ctypeHeaders : HeadersDetails where
  requestId := "7"
  url := "https://api.x/y"
  rtype := "xmlhttprequest"
  headers := [("Content-Type", some "application/json")]

def completed200 : EndDetails where
  requestId := "7"
  rtype := "xmlhttprequest"
  statusCode := 200

/-- The tail of the worked example: headers sent, headers received,
completed with 200. -/
def specTail : List EventDetails :=
  [EventDetails.reqHeaders authHeaders, EventDetails.respHeaders ctypeHeaders,
   EventDetails.completed completed200]

/-- A begin event carrying a raw byte body. -/
def rawBegin : BeginDetails where
  requestId := "7"
  url := "https://api.x/y"
  method := "POST"
  rtype := "xmlhttprequest"
  requestBody := some { raw := some [{ bytes := [255, 0] }] }

/-- The entry that `getOrCreatePending` creates on a first event. -/
def initEntry (requestId : String) (now : Nat) : Rec where
  id := requestId
  status := 0
  timestamp := now
  requestHeaders := []
  responseHeaders := []

/-- The pure effect of one passing lifecycle event on a live pending
entry: exactly the mutations the corresponding listener performs. -/
def applyEvD (dec : List Nat → Except Unit String) (e : Rec) :
    EventDetails → Rec
  | EventDetails.begin d =>
      captureBody dec
        { e with url := some d.url, method := some d.method,
                 rtype := some d.rtype } d.requestBody
  | EventDetails.reqHeaders d =>
      { e with requestHeaders := hmerge e.requestHeaders (toHMap d.headers) }
  | EventDetails.respHeaders d =>
      { e with responseHeaders :=
          hmerge e.responseHeaders (toHMap d.headers) }
  | EventDetails.completed d => { e with status := d.statusCode }
  | EventDetails.errored d => { e with status := 0, error := some d.error }

/-- The request id an event is about. -/
def evRequestId : EventDetails → String
  | EventDetails.begin d => d.requestId
  | EventDetails.reqHeaders d => d.requestId
  | EventDetails.respHeaders d => d.requestId
  | EventDetails.completed d => d.requestId
  | EventDetails.errored d => d.requestId

/-- The removal an event schedules (only completed defers a deletion). -/
def evScheduled : EventDetails → List String
  | EventDetails.completed d => [d.requestId]
  | _ => []

/-- The static filter of each listener. -/
def passes (extId : String) : EventDetails → Bool
  | EventDetails.begin d =>
      !(isExtensionRequest extId d.initiator d.url) &&
      !(d.rtype == "ping") && isApiRequest d.rtype
  | EventDetails.reqHeaders d =>
      !(isExtensionRequest extId d.initiator d.url) && isApiRequest d.rtype
  | EventDetails.respHeaders d =>
      !(isExtensionRequest extId d.initiator d.url) && isApiRequest d.rtype
  | EventDetails.completed d => isApiRequest d.rtype
  | EventDetails.errored d => isApiRequest d.rtype

def isErrored : EventDetails → Bool
  | EventDetails.errored _ => true
  | _ => false

/-- Processing a list of lifecycle events in order (each listener body is
atomic on the event loop; an interleaving of events is some such list). -/
def runEvents (env : Env) (now : Nat) (st : CState)
    (evs : List EventDetails) : CState :=
  evs.foldl (handleEvent env true now) st

/-- The snapshots `saveLog` receives while the events are processed. -/
def snapshotsFrom (dec : List Nat → Except Unit String) (e : Rec) :
    List EventDetails → List Rec
  | [] => []
  | ev :: evs =>
      applyEvD dec e ev :: snapshotsFrom dec (applyEvD dec e ev) evs

/-- The details of the last begin event, starting from `d`. -/
def lastBegin (d : BeginDetails) : List EventDetails → BeginDetails
  | [] => d
  | EventDetails.begin d2 :: evs => lastBegin d2 evs
  | _ :: evs => lastBegin d evs

/-- The status code of the last completed event, starting from `c`. -/
def lastStatus (c : Nat) : List EventDetails → Nat
  | [] => c
  | EventDetails.completed d2 :: evs => lastStatus d2.statusCode evs
  | _ :: evs => lastStatus c evs

/-- The key-wise merge of all observed request-header maps onto `m`. -/
def reqHeaderFold (m : HMap) : List EventDetails → HMap
  | [] => m
  | EventDetails.reqHeaders d :: evs =>
      reqHeaderFold (hmerge m (toHMap d.headers)) evs
  | _ :: evs => reqHeaderFold m evs

/-- The key-wise merge of all observed response-header maps onto `m`. -/
def respHeaderFold (m : HMap) : List EventDetails → HMap
  | [] => m
  | EventDetails.respHeaders d :: evs =>
      respHeaderFold (hmerge m (toHMap d.headers)) evs
  | _ :: evs => respHeaderFold m evs

/-- The pending entry after a begin event and a tail of further events
for the same identifier. -/
def finalEntry (env : Env) (now : Nat) (d : BeginDetails)
    (rest : List EventDetails) : Rec :=
  (EventDetails.begin d :: rest).foldl (applyEvD env.dec)
    (initEntry d.requestId now)

/-- A full run from a state with an empty snapshot queue. -/
def runC2 (env : Env) (now : Nat) (pend0 : List (String × Rec))
    (sched0 : List String) (d : BeginDetails)
    (rest : List EventDetails) : CState :=
  runEvents env now (CState.mk pend0 [] sched0)
    (EventDetails.begin d :: rest)

/-- Field monotonicity between two entries: optional fields present in
the first are present in the second (events only add information). -/
def MonoFields (e s : Rec) : Prop :=
  (e.url.isSome → s.url.isSome) ∧
  (e.method.isSome → s.method.isSome) ∧
  (e.rtype.isSome → s.rtype.isSome) ∧
  (e.requestBody.isSome → s.requestBody.isSome) ∧
  (e.error.isSome → s.error.isSome)

/-! ## Heap model of the correlator (aliasing of header-map objects)

`saveLog` pushes a SHALLOW copy of the entry: the scalar fields are copied
by value, the two header-map objects by reference.  To settle the frame
claim about queued snapshots, this model makes those references explicit:
`HState.heap` is the list of allocated header-map objects, an `EntryObj`
carries indices into it, and the listeners that update a header map build
a fresh object (the object-spread literal of the source) and rebind the
entry's reference instead of mutating the old cell, exactly as the source
does.  The recording/filter gates only prevent steps, so the step
relation ranges over the post-gate listener bodies. -/

/-- An entry object as laid out on the JS heap: scalars by value, the two
header-map objects by reference into the heap. -/
structure EntryObj where
  id : String
  status : Nat
  timestamp : Nat
  reqHRef : Nat
  respHRef : Nat
  url : Option String := none
  method : Option String := none
  rtype : Option String := none
  requestBody : Option BodyVal := none
  error : Option String := none
deriving Repr, DecidableEq

/-- Correlator state with the explicit heap of header-map objects. -/
structure HState where
  heap : List HMap
  pending : List (String × EntryObj)
  queue : List EntryObj
deriving Repr, DecidableEq

/-- Dereference of a header-map object. -/
def heapGet (heap : List HMap) (ref : Nat) : HMap :=
  heap.getD ref []

/-- Resolving an entry object against the heap yields the value-level
record a consumer of the snapshot observes. -/
def resolveEntry (heap : List HMap) (e : EntryObj) : Rec where
  id := e.id
  status := e.status
  timestamp := e.timestamp
  requestHeaders := heapGet heap e.reqHRef
  responseHeaders := heapGet heap e.respHRef
  url := e.url
  method := e.method
  rtype := e.rtype
  requestBody := e.requestBody
  error := e.error

/-- Body capture on an entry object (the captured body is a scalar
field). -/
def captureBodyO (dec : List Nat → Except Unit String) (e : EntryObj)
    (rb : Option BodyInfo) : EntryObj :=
  match rb with
  | none => e
  | some info =>
      match info.raw with
      | some (elem :: _) =>
          match dec elem.bytes with
          | Except.ok s => { e with requestBody := some (BodyVal.text s) }
          | Except.error _ =>
              { e with requestBody := some (BodyVal.text "[Binary Data]") }
      | _ =>
          match info.formData with
          | some fd => { e with requestBody := some (BodyVal.form fd) }
          | none => e

/-- onBeforeRequest body on the heap: `getOrCreatePending` (a fresh entry
allocates two empty header-map objects), scalar mutations, body capture,
and a shallow-copied snapshot pushed by `saveLog`. -/
def hBegin (env : Env) (now : Nat) (s : HState) (d : BeginDetails) :
    HState :=
  match aget s.pending d.requestId with
  | some e =>
      let e2 := captureBodyO env.dec
        { e with url := some d.url, method := some d.method,
                 rtype := some d.rtype } d.requestBody
      { heap := s.heap, pending := aset s.pending d.requestId e2,
        queue := s.queue ++ [e2] }
  | none =>
      let e2 := captureBodyO env.dec
        { id := d.requestId, status := 0, timestamp := now,
          reqHRef := s.heap.length, respHRef := s.heap.length + 1,
          url := some d.url, method := some d.method,
          rtype := some d.rtype } d.requestBody
      { heap := s.heap ++ [[], []],
        pending := aset s.pending d.requestId e2,
        queue := s.queue ++ [e2] }

/-- onBeforeSendHeaders on the heap: the object-spread expression builds
a FRESH map object from the entry's current one and the sent headers, and
the entry's reference is rebound to it; the old cell is never written. -/
def hReqHeaders (now : Nat) (s : HState) (d : HeadersDetails) : HState :=
  match aget s.pending d.requestId with
  | some e =>
      let e2 := { e with reqHRef := s.heap.length }
      { heap := s.heap ++
          [hmerge (heapGet s.heap e.reqHRef) (toHMap d.headers)],
        pending := aset s.pending d.requestId e2,
        queue := s.queue ++ [e2] }
  | none =>
      let e2 : EntryObj :=
        { id := d.requestId, status := 0, timestamp := now,
          reqHRef := (s.heap ++ [[], []]).length,
          respHRef := s.heap.length + 1 }
      { heap := (s.heap ++ [[], []]) ++
          [hmerge (heapGet (s.heap ++ [[], []]) s.heap.length)
            (toHMap d.headers)],
        pending := aset s.pending d.requestId e2,
        queue := s.queue ++ [e2] }

/-- onHeadersReceived on the heap, symmetric to `hReqHeaders`. -/
def hRespHeaders (now : Nat) (s : HState) (d : HeadersDetails) : HState :=
  match aget s.pending d.requestId with
  | some e =>
      let e2 := { e with respHRef := s.heap.length }
      { heap := s.heap ++
          [hmerge (heapGet s.heap e.respHRef) (toHMap d.headers)],
        pending := aset s.pending d.requestId e2,
        queue := s.queue ++ [e2] }
  | none =>
      let e2 : EntryObj :=
        { id := d.requestId, status := 0, timestamp := now,
          reqHRef := s.heap.length,
          respHRef := (s.heap ++ [[], []]).length }
      { heap := (s.heap ++ [[], []]) ++
          [hmerge (heapGet (s.heap ++ [[], []]) (s.heap.length + 1))
            (toHMap d.headers)],
        pending := aset s.pending d.requestId e2,
        queue := s.queue ++ [e2] }

/-- onCompleted on the heap: a scalar mutation plus a snapshot. -/
def hCompleted (s : HState) (d : EndDetails) : HState :=
  match aget s.pending d.requestId with
  | none => s
  | some e =>
      if isApiRequest d.rtype then
        let e2 := { e with status := d.statusCode }
        { heap := s.heap, pending := aset s.pending d.requestId e2,
          queue := s.queue ++ [e2] }
      else s

/-- onErrorOccurred on the heap: scalar mutations, a snapshot, and the
immediate table deletion. -/
def hErrored (s : HState) (d : EndDetails) : HState :=
  match aget s.pending d.requestId with
  | none => s
  | some e =>
      if isApiRequest d.rtype then
        let e2 := { e with status := 0, error := some d.error }
        { heap := s.heap, pending := aerase s.pending d.requestId,
          queue := s.queue ++ [e2] }
      else s

/-- The grace-delay timer firing: deletes a table entry. -/
def hPurge (s : HState) (requestId : String) : HState :=
  { s with pending := aerase s.pending requestId }

/-- Any later listener invocation or timer firing. -/
inductive HStep : HState → HState → Prop where
  | begin (s : HState) (env : Env) (now : Nat) (d : BeginDetails) :
      HStep s (hBegin env now s d)
  | reqHeaders (s : HState) (now : Nat) (d : HeadersDetails) :
      HStep s (hReqHeaders now s d)
  | respHeaders (s : HState) (now : Nat) (d : HeadersDetails) :
      HStep s (hRespHeaders now s d)
  | completed (s : HState) (d : EndDetails) : HStep s (hCompleted s d)
  | errored (s : HState) (d : EndDetails) : HStep s (hErrored s d)
  | purge (s : HState) (requestId : String) : HStep s (hPurge s requestId)

def HReach (s s' : HState) : Prop := Relation.ReflTransGen HStep s s'

/-- The snapshot object the begin listener for the worked example pushes
from an empty heap state: its header-map objects are cells 0 and 1. -/
def snapshotObj7 : EntryObj where
  id := "7"
  status := 0
  timestamp := 0
  reqHRef := 0
  respHRef := 1
  url := some "https://api.x/y"
  method := some "GET"
  rtype := some "xmlhttprequest"

/-! ## The declarativeNetRequest override-rule manager -/

/-- One element of the SET_REQUEST_HEADERS message's header array,
carrying `key` or `name` plus a value. -/
structure HeaderKV where
  key : Option String := none
  name : Option String := none
  value : String
deriving Repr, DecidableEq

/-- JS falsy-or (`h.key || h.name`): the second operand when the first is
absent or the empty string. -/
def orFalsy (a b : Option String) : Option String :=
  match a with
  | some s => if s = "" then b else some s
  | none => b

/-- A requestHeaders modification of the built rule (operation is always
SET). -/
structure DNRHeaderMod where
  header : Option String
  value : String
deriving Repr, DecidableEq

/-- A session rule (action type is always MODIFY_HEADERS and the resource
type condition is fixed, so only the varying fields are carried). -/
structure DNRRule where
  id : Nat
  priority : Nat
  urlFilter : String
  requestHeaders : List DNRHeaderMod
deriving Repr, DecidableEq

/-- `chrome.declarativeNetRequest.updateSessionRules`: one atomic update
that removes the rules with the listed ids and then adds the given
rules. -/
def updateSessionRules (rules : List DNRRule) (removeIds : List Nat)
    (adds : List DNRRule) : List DNRRule :=
  rules.filter (fun r => !(removeIds.contains r.id)) ++ adds

/-- JS split of the url at the question mark, first component
(the `cleanUrl` of the listener). -/
def cleanUrl (url : String) : String :=
  String.mk (url.toList.takeWhile (fun c => !(c == '?')))

/-- The rule object built by the SET_REQUEST_HEADERS branch: fixed id 1,
priority 999, query-stripped url filter, and one SET modification per
header element keyed by `key` or `name`. -/
def buildRule (url : String) (headers : List HeaderKV) : DNRRule where
  id := 1
  priority := 999
  urlFilter := cleanUrl url
  requestHeaders :=
    headers.map (fun h => { header := orFalsy h.key h.name, value := h.value })

/-- The SET_REQUEST_HEADERS message handler: a single remove-then-add
update against the active rule set. -/
def handleSetRequestHeaders (rules : List DNRRule) (url : String)
    (headers : List HeaderKV) : List DNRRule :=
  updateSessionRules rules [1] [buildRule url headers]

/-- The CLEAR_REQUEST_HEADERS message handler. -/
def handleClearRequestHeaders (rules : List DNRRule) : List DNRRule :=
  updateSessionRules rules [1] []

/-- A record with no url and a fresh id, as dequeued by the serializer. -/
def urllessRec : Rec where
  id := "9"
  status := 0
  timestamp := 0
  requestHeaders := []
  responseHeaders := []

theorem find?_map_other_key {α : Type} (t : List (String × α)) (k k' : String)
    (v : α) (hk : k' ≠ k) :
    (t.map (fun q => if q.1 == k then (k, v) else q)).find?
        (fun q => q.1 == k') =
      t.find? (fun q => q.1 == k') := by
  induction t with
  | nil => rfl
  | cons q t ih =>
    rw [List.map_cons]
    by_cases hq : q.1 = k
    · rw [if_pos (by simpa using hq)]
      rw [List.find?_cons_of_neg _ (by simpa using Ne.symm hk)]
      rw [List.find?_cons_of_neg _ (by simp [hq]; exact Ne.symm hk)]
      exact ih
    · rw [if_neg (by simpa using hq)]
      by_cases hq' : q.1 = k'
      · rw [List.find?_cons_of_pos _ (by simpa using hq'),
          List.find?_cons_of_pos _ (by simpa using hq')]
      · rw [List.find?_cons_of_neg _ (by simpa using hq'),
          List.find?_cons_of_neg _ (by simpa using hq')]
        exact ih

theorem find?_map_self_key {α : Type} (t : List (String × α)) (k : String)
    (v : α) (h : t.any (fun p => p.1 == k) = true) :
    (t.map (fun q => if q.1 == k then (k, v) else q)).find?
        (fun q => q.1 == k) = some (k, v) := by
  induction t with
  | nil => simp at h
  | cons q t ih =>
    rw [List.map_cons]
    by_cases hq : q.1 = k
    · rw [if_pos (by simpa using hq)]
      rw [List.find?_cons_of_pos _ (by simp)]
    · rw [if_neg (by simpa using hq)]
      rw [List.find?_cons_of_neg _ (by simpa using hq)]
      apply ih
      rcases List.any_eq_true.mp h with ⟨r, hrmem, hrk⟩
      rcases List.mem_cons.mp hrmem with hr | hr
      · rw [hr] at hrk
        exact absurd (by simpa using hrk) hq
      · exact List.any_eq_true.mpr ⟨r, hr, hrk⟩

theorem find?_of_no_key {α : Type} (t : List (String × α)) (k : String)
    (h : t.any (fun p => p.1 == k) = false) :
    t.find? (fun p => p.1 == k) = none := by
  apply List.find?_eq_none.mpr
  intro q hq
  by_contra hcon
  have hq' : (q.1 == k) = true := by simpa using hcon
  have : t.any (fun p => p.1 == k) = true := List.any_eq_true.mpr ⟨q, hq, hq'⟩
  simp [this] at h

theorem aget_aset {α : Type} (t : List (String × α)) (k k' : String) (v : α) :
    aget (aset t k v) k' = if k' = k then some v else aget t k' := by
  unfold aget aset
  cases hmem : t.any (fun p => p.1 == k) with
  | true =>
    rw [if_pos rfl]
    by_cases hk : k' = k
    · subst hk
      rw [find?_map_self_key t k' v hmem]
      simp
    · rw [find?_map_other_key t k k' v hk]
      rw [if_neg hk]
  | false =>
    rw [if_neg (by simp)]
    rw [List.find?_append]
    by_cases hk : k' = k
    · subst hk
      rw [find?_of_no_key t k' hmem]
      simp [List.find?]
    · have hlast : List.find? (fun p => p.1 == k') [(k, v)] = none := by
        apply List.find?_eq_none.mpr
        intro q hq
        simp at hq
        subst hq
        simpa using Ne.symm hk
      rw [hlast, if_neg hk]
      cases h : t.find? (fun p => p.1 == k') <;> simp

theorem find?_filter_other_key {α : Type} (t : List (String × α))
    (k k' : String) (hk : k' ≠ k) :
    (t.filter (fun q => !(q.1 == k))).find? (fun q => q.1 == k') =
      t.find? (fun q => q.1 == k') := by
  induction t with
  | nil => rfl
  | cons q t ih =>
    rw [List.filter_cons]
    by_cases hq : q.1 = k
    · rw [if_neg (by simpa using hq)]
      rw [List.find?_cons_of_neg _ (by simp [hq]; exact Ne.symm hk)]
      exact ih
    · rw [if_pos (by simpa using hq)]
      by_cases hq' : q.1 = k'
      · rw [List.find?_cons_of_pos _ (by simpa using hq'),
          List.find?_cons_of_pos _ (by simpa using hq')]
      · rw [List.find?_cons_of_neg _ (by simpa using hq'),
          List.find?_cons_of_neg _ (by simpa using hq')]
        exact ih

theorem aget_aerase {α : Type} (t : List (String × α)) (k k' : String) :
    aget (aerase t k) k' = if k' = k then none else aget t k' := by
  by_cases hk : k' = k
  · subst hk
    rw [if_pos rfl]
    unfold aget aerase
    have h : (t.filter (fun p => !(p.1 == k'))).find? (fun p => p.1 == k') =
        none := by
      apply List.find?_eq_none.mpr
      intro q hq
      have := List.of_mem_filter hq
      simp at this ⊢
      exact this
    rw [h]
    rfl
  · rw [if_neg hk]
    unfold aget aerase
    rw [find?_filter_other_key t k k' hk]

theorem computeNewLogs_length (logs : List Rec) (r : Rec) (nl : List Rec)
    (h : computeNewLogs logs r = some nl) (hlen : logs.length ≤ MAX_LOGS) :
    nl.length ≤ MAX_LOGS := by
  unfold computeNewLogs at h
  cases hidx : logs.findIdx? (fun l => l.id == r.id) with
  | some idx =>
    rw [hidx] at h
    cases h
    simpa using hlen
  | none =>
    rw [hidx] at h
    by_cases hurl : r.url = none
    · simp [hurl] at h
    · rw [if_neg hurl] at h
      cases h
      simp only [List.length_take]
      exact Nat.min_le_left MAX_LOGS _

theorem QInv_procQ (s : QState)
    (hcase : (s.isSaving = false ∧ s.ops = []) ∨
      (s.isSaving = true ∧ s.ops.length = 1))
    (hseq : s.processed ++ s.ops.map opRec ++ s.saveQueue = s.enqueued)
    (hlogs : s.logs.length ≤ MAX_LOGS)
    (hset : ∀ nl r, Op.set nl r ∈ s.ops → nl.length ≤ MAX_LOGS) :
    QInv (procQ s) := by
  obtain ⟨sv, q, lg, ops, enq, proc⟩ := s
  rcases hcase with ⟨hf, hops⟩ | ⟨ht, hops⟩
  · subst hf
    subst hops
    cases q with
    | nil =>
      refine ⟨by simp [procQ], by simp [procQ], ?_, by simpa using hlogs, ?_⟩
      · simpa [procQ] using hseq
      · intro nl r hmem
        simp [procQ] at hmem
    | cons r rest =>
      refine ⟨by simp [procQ], by simp [procQ], ?_, by simpa using hlogs, ?_⟩
      · simp only [procQ, List.map]
        simp only at hseq
        simp [opRec]
        simpa using hseq
      · intro nl r' hmem
        simp [procQ] at hmem
  · subst ht
    cases ops with
    | nil => simp at hops
    | cons o os =>
      have hos : os.length = 0 := by simpa using hops
      have hos2 := List.length_eq_zero.mp hos
      subst hos2
      refine ⟨by simp [procQ], by simp [procQ], ?_, by simpa using hlogs, ?_⟩
      · simpa [procQ] using hseq
      · intro nl r hmem
        exact hset nl r (by simpa [procQ] using hmem)

theorem QInv_step (s s' : QState) (h : QStep s s') (hs : QInv s) : QInv s' := by
  obtain ⟨hlen, hflag, hseq, hlogs, hset⟩ := hs
  cases h with
  | save r =>
    unfold saveLogF
    apply QInv_procQ
    · cases hops2 : s.ops with
      | nil =>
        left
        refine ⟨?_, by simp [hops2]⟩
        show s.isSaving = false
        rw [hflag, hops2]
        rfl
      | cons o os =>
        right
        have hos : os = [] := by
          rw [hops2, List.length_cons] at hlen
          exact List.length_eq_zero.mp (by omega)
        refine ⟨?_, by simp [hops2, hos]⟩
        show s.isSaving = true
        rw [hflag, hops2]
        rfl
    · show s.processed ++ s.ops.map opRec ++ (s.saveQueue ++ [r]) =
        s.enqueued ++ [r]
      rw [← hseq]
      simp
    · exact hlogs
    · exact hset
  | get l1 l2 r hops =>
    rw [hops, List.length_append, List.length_cons] at hlen
    have h1 : l1 = [] := List.length_eq_zero.mp (by omega)
    have h2 : l2 = [] := List.length_eq_zero.mp (by omega)
    subst h1; subst h2
    rw [hops] at hflag hseq
    simp at hflag
    unfold getCb
    cases hc : computeNewLogs s.logs r with
    | some nl =>
      refine ⟨by simp, by simp [hflag], ?_, by simpa using hlogs, ?_⟩
      · simpa [opRec] using hseq
      · intro nl' r' hmem
        simp at hmem
        obtain ⟨hnl, _⟩ := hmem
        subst hnl
        exact computeNewLogs_length s.logs r nl' hc hlogs
    | none =>
      apply QInv_procQ
      · left; exact ⟨rfl, rfl⟩
      · simpa [opRec] using hseq
      · exact hlogs
      · intro nl r hmem
        simp at hmem
  | set l1 l2 nl r hops =>
    rw [hops, List.length_append, List.length_cons] at hlen
    have h1 : l1 = [] := List.length_eq_zero.mp (by omega)
    have h2 : l2 = [] := List.length_eq_zero.mp (by omega)
    subst h1; subst h2
    rw [hops] at hseq hset
    apply QInv_procQ
    · left; exact ⟨rfl, rfl⟩
    · simpa [opRec] using hseq
    · exact hset nl r (by simp)
    · intro nl' r' hmem
      simp at hmem

theorem QInv_reach (s0 s : QState) (h : QReach s0 s) (h0 : QInv s0) :
    QInv s := by
  induction h with
  | refl => exact h0
  | tail _ hstep ih => exact QInv_step _ _ hstep ih

theorem QInv_init (logs0 : List Rec) (h : logs0.length ≤ MAX_LOGS) :
    QInv (initQ logs0) := by
  refine ⟨by simp [initQ], by simp [initQ], by simp [initQ], by simpa [initQ] using h, ?_⟩
  intro nl r hmem
  simp [initQ] at hmem

theorem set_preserves_map {α β : Type} (f : α → β) (l : List α) (i : Nat)
    (a : α) (h : ∀ b, l[i]? = some b → f a = f b) :
    (l.set i a).map f = l.map f := by
  induction l generalizing i with
  | nil => simp
  | cons x xs ih =>
    cases i with
    | zero =>
      rw [List.set_cons_zero, List.map_cons, List.map_cons, h x (by simp)]
    | succ i =>
      rw [List.set_cons_succ, List.map_cons, List.map_cons,
        ih i (fun b hb => h b (by simpa using hb))]

/-- Claim C1: for every interleaving of the asynchronous storage reads and
writes, at most one read-merge-write pass is outstanding (`ops.length ≤ 1`),
the `isSaving` flag is set exactly while one is outstanding, and passes
complete in exactly the order the records were enqueued by `saveLog`
(`processed` is always an initial segment of `enqueued`, so if r1 was
enqueued before r2, r1's pass is applied to the durable logs before
r2's). -/
theorem c1_write_serializer_fifo (logs0 : List Rec) (s : QState)
    (h0 : logs0.length ≤ MAX_LOGS) (h : QReach (initQ logs0) s) :
    s.ops.length ≤ 1 ∧
    s.isSaving = !s.ops.isEmpty ∧
    ∃ t, s.processed ++ t = s.enqueued := by
  have hinv := QInv_reach _ _ h (QInv_init logs0 h0)
  obtain ⟨h1, h2, h3, _, _⟩ := hinv
  refine ⟨h1, h2, s.ops.map opRec ++ s.saveQueue, ?_⟩
  rw [← List.append_assoc]
  exact h3

theorem c1_write_serializer_fifo_witness :
    (([] : List Rec).length ≤ MAX_LOGS) ∧
    ((saveLogF (initQ []) sampleRec).ops.length ≤ 1 ∧
     (saveLogF (initQ []) sampleRec).isSaving =
       !(saveLogF (initQ []) sampleRec).ops.isEmpty ∧
     ∃ t, (saveLogF (initQ []) sampleRec).processed ++ t =
       (saveLogF (initQ []) sampleRec).enqueued) :=
  ⟨by decide, c1_write_serializer_fifo [] _ (by decide)
    (Relation.ReflTransGen.single (QStep.save _ sampleRec))⟩

/-- Claim C3: a `processQueue` pass keeps the stored logs within the
`MAX_LOGS` capacity; a record whose id is already stored is merged into
the existing entry in place (the id sequence of the list is unchanged);
a record with a fresh id and a url is prepended, with no eviction while
below capacity and eviction of exactly the oldest (last) entry at
capacity; and every state reachable from an in-capacity store keeps the
stored logs within capacity. -/
theorem c3_record_store_invariants (logs : List Rec) (r : Rec)
    (hlen : logs.length ≤ MAX_LOGS) :
    (applyLog logs r).length ≤ MAX_LOGS ∧
    (∀ idx, logs.findIdx? (fun l => l.id == r.id) = some idx →
      applyLog logs r = logs.set idx (mergeRecord (logs.getD idx r) r) ∧
      (applyLog logs r).map (fun l => l.id) = logs.map (fun l => l.id)) ∧
    (logs.findIdx? (fun l => l.id == r.id) = none → r.url ≠ none →
      applyLog logs r = (r :: logs).take MAX_LOGS ∧
      (logs.length < MAX_LOGS → applyLog logs r = r :: logs) ∧
      (logs.length = MAX_LOGS → applyLog logs r = r :: logs.dropLast)) ∧
    (∀ s : QState, QReach (initQ logs) s → s.logs.length ≤ MAX_LOGS) := by
  refine ⟨?_, ?_, ?_, ?_⟩
  · unfold applyLog
    cases hc : computeNewLogs logs r with
    | none => simpa using hlen
    | some nl => simpa using computeNewLogs_length logs r nl hc hlen
  · intro idx hidx
    have happ : applyLog logs r =
        logs.set idx (mergeRecord (logs.getD idx r) r) := by
      unfold applyLog computeNewLogs
      rw [hidx]
      rfl
    refine ⟨happ, ?_⟩
    rw [happ]
    apply set_preserves_map
    intro b hb
    obtain ⟨hlt, hp, _⟩ := List.findIdx?_eq_some_iff_getElem.mp hidx
    have hbeq : logs[idx] = b := by
      rw [List.getElem?_eq_getElem hlt] at hb
      exact Option.some.inj hb
    show (mergeRecord (logs.getD idx r) r).id = b.id
    have : b.id = r.id := by
      rw [← hbeq]
      simpa using hp
    rw [this]
    rfl
  · intro hidx hurl
    have happ : applyLog logs r = (r :: logs).take MAX_LOGS := by
      unfold applyLog computeNewLogs
      rw [hidx, if_neg hurl]
      rfl
    refine ⟨happ, ?_, ?_⟩
    · intro hlt
      rw [happ, List.take_of_length_le (by simpa using hlt)]
    · intro heq
      rw [happ, List.dropLast_eq_take, heq]
      rfl
  · intro s hs
    have := QInv_reach _ _ hs (QInv_init logs hlen)
    exact this.2.2.2.1

theorem c3_record_store_invariants_witness :
    (([] : List Rec).length ≤ MAX_LOGS) ∧
    ((applyLog [] sampleRec).length ≤ MAX_LOGS ∧
     (∀ idx, ([] : List Rec).findIdx? (fun l => l.id == sampleRec.id) = some idx →
       applyLog [] sampleRec =
         List.set ([] : List Rec) idx
           (mergeRecord (List.getD ([] : List Rec) idx sampleRec) sampleRec) ∧
       (applyLog [] sampleRec).map (fun l => l.id) =
         ([] : List Rec).map (fun l => l.id)) ∧
     (([] : List Rec).findIdx? (fun l => l.id == sampleRec.id) = none →
       sampleRec.url ≠ none →
       applyLog [] sampleRec = (sampleRec :: []).take MAX_LOGS ∧
       (([] : List Rec).length < MAX_LOGS → applyLog [] sampleRec = [sampleRec]) ∧
       (([] : List Rec).length = MAX_LOGS →
         applyLog [] sampleRec = sampleRec :: List.dropLast [])) ∧
     (∀ s : QState, QReach (initQ []) s → s.logs.length ≤ MAX_LOGS)) :=
  ⟨by decide, c3_record_store_invariants [] sampleRec (by decide)⟩

/-- Claim C7: when the storage-read callback fires for a dequeued record
whose id is not among the stored logs and whose url is absent, the record
is dropped: no write is issued (`computeNewLogs` is `none`), the stored
logs are unchanged, the pass is simply counted as processed, and the
processor moves on to the next queued item if any. -/
theorem c7_fresh_record_without_url_dropped (s : QState) (r : Rec)
    (hurl : r.url = none) (hid : ∀ l ∈ s.logs, ¬ l.id = r.id)
    (hops : s.ops = []) :
    computeNewLogs s.logs r = none ∧
    (getCb s r).logs = s.logs ∧
    (getCb s r).processed = s.processed ++ [r] ∧
    (∀ r2 rest, s.saveQueue = r2 :: rest →
      (getCb s r).isSaving = true ∧ (getCb s r).saveQueue = rest ∧
      (getCb s r).ops = [Op.get r2]) ∧
    (s.saveQueue = [] → (getCb s r).isSaving = false) := by
  have hidx : s.logs.findIdx? (fun l => l.id == r.id) = none := by
    rw [List.findIdx?_eq_none_iff]
    intro l hl
    simpa using hid l hl
  have hnone : computeNewLogs s.logs r = none := by
    unfold computeNewLogs
    rw [hidx, if_pos hurl]
  obtain ⟨sv, q, lg, ops, enq, proc⟩ := s
  simp only at hops
  subst hops
  refine ⟨hnone, ?_, ?_, ?_, ?_⟩
  · unfold getCb
    rw [hnone]
    cases q with
    | nil => rfl
    | cons r2 rest => rfl
  · unfold getCb
    rw [hnone]
    cases q with
    | nil => rfl
    | cons r2 rest => rfl
  · intro r2 rest hq
    simp only at hq
    subst hq
    unfold getCb
    rw [hnone]
    exact ⟨rfl, rfl, rfl⟩
  · intro hq
    simp only at hq
    subst hq
    unfold getCb
    rw [hnone]
    rfl

theorem captureBody_eq (dec : List Nat → Except Unit String) (e : Rec)
    (rb : Option BodyInfo) :
    ∃ b, captureBody dec e rb = { e with requestBody := b } ∧
      (e.requestBody.isSome → b.isSome) := by
  unfold captureBody
  cases rb with
  | none => exact ⟨e.requestBody, rfl, fun h => h⟩
  | some info =>
    obtain ⟨raw0, form0⟩ := info
    cases raw0 with
    | some l =>
      cases l with
      | nil =>
        cases form0 with
        | none => exact ⟨e.requestBody, rfl, fun h => h⟩
        | some fd => exact ⟨some (BodyVal.form fd), rfl, fun _ => rfl⟩
      | cons elem rest =>
        cases hd : dec elem.bytes with
        | ok s => exact ⟨some (BodyVal.text s), by simp only [hd], fun _ => rfl⟩
        | error u =>
          exact ⟨some (BodyVal.text "[Binary Data]"), by simp only [hd],
            fun _ => rfl⟩
    | none =>
      cases form0 with
      | none => exact ⟨e.requestBody, rfl, fun h => h⟩
      | some fd => exact ⟨some (BodyVal.form fd), rfl, fun _ => rfl⟩

theorem onCompletedH_found (st : CState) (d : EndDetails) (e : Rec)
    (h : aget st.pending d.requestId = some e)
    (hapi : isApiRequest d.rtype = true) :
    onCompletedH st d =
      { pending := aset st.pending d.requestId { e with status := d.statusCode },
        queue := st.queue ++ [{ e with status := d.statusCode }],
        scheduled := st.scheduled ++ [d.requestId] } := by
  unfold onCompletedH
  rw [h]
  simp only [hapi, if_true]

theorem onErrorOccurredH_found (st : CState) (d : EndDetails) (e : Rec)
    (h : aget st.pending d.requestId = some e)
    (hapi : isApiRequest d.rtype = true) :
    onErrorOccurredH st d =
      { pending := aerase st.pending d.requestId,
        queue := st.queue ++ [{ e with status := 0, error := some d.error }],
        scheduled := st.scheduled } := by
  unfold onErrorOccurredH
  rw [h]
  simp only [hapi, if_true]

theorem c7_fresh_record_without_url_dropped_witness :
    (urllessRec.url = none ∧ (∀ l ∈ ([sampleRec] : List Rec), ¬ l.id = urllessRec.id)) ∧
    (computeNewLogs [sampleRec] urllessRec = none ∧
     (getCb (QState.mk false [sampleRec] [sampleRec] [] [] []) urllessRec).logs = [sampleRec] ∧
     (getCb (QState.mk false [sampleRec] [sampleRec] [] [] []) urllessRec).processed = [] ++ [urllessRec] ∧
     (∀ r2 rest, ([sampleRec] : List Rec) = r2 :: rest →
       (getCb (QState.mk false [sampleRec] [sampleRec] [] [] []) urllessRec).isSaving = true ∧
       (getCb (QState.mk false [sampleRec] [sampleRec] [] [] []) urllessRec).saveQueue = rest ∧
       (getCb (QState.mk false [sampleRec] [sampleRec] [] [] []) urllessRec).ops = [Op.get r2]) ∧
     (([sampleRec] : List Rec) = [] →
       (getCb (QState.mk false [sampleRec] [sampleRec] [] [] []) urllessRec).isSaving = false)) :=
  ⟨⟨by decide, by decide⟩,
    c7_fresh_record_without_url_dropped
      (QState.mk false [sampleRec] [sampleRec] [] [] []) urllessRec
      (by decide) (by decide) rfl⟩

/-- Claim C5 counterexample: with the Recording Toggle off but a pending
entry alive, a completed event is not rejected — its snapshot is still
enqueued to the Write Serializer, because the onCompleted listener never
reads the toggle. -/
theorem c5_counterexample :
    ¬((handleEvent sampleEnv false 0 aliveState
        (EventDetails.completed completedEnd)).queue = aliveState.queue) := by
  decide

/-- Claim C5 (amended): the begin, request-headers-sent and
response-headers-received listeners read the Recording Toggle and, when it
is false, reject the event outright (state unchanged, nothing enqueued);
the completed and errored listeners do not consult the toggle at all —
their behaviour is identical for any toggle value, gated only on a pending
entry existing and the API-type filter. -/
theorem c5_toggle_gating_amended (env : Env) (now : Nat) (st : CState)
    (bd : BeginDetails) (hd hd2 : HeadersDetails) (ed ee : EndDetails) :
    handleEvent env false now st (EventDetails.begin bd) = st ∧
    handleEvent env false now st (EventDetails.reqHeaders hd) = st ∧
    handleEvent env false now st (EventDetails.respHeaders hd2) = st ∧
    (∀ b, handleEvent env b now st (EventDetails.completed ed) =
      handleEvent env true now st (EventDetails.completed ed)) ∧
    (∀ b, handleEvent env b now st (EventDetails.errored ee) =
      handleEvent env true now st (EventDetails.errored ee)) := by
  refine ⟨?_, ?_, ?_, fun b => rfl, fun b => rfl⟩
  · show onBeforeRequestH env false now st bd = st
    unfold onBeforeRequestH
    simp
  · show onBeforeSendHeadersH env false now st hd = st
    unfold onBeforeSendHeadersH
    simp
  · show onHeadersReceivedH env false now st hd2 = st
    unfold onHeadersReceivedH
    simp

/-- Claim C6 counterexample: on an errored event the Pending Table entry
is removed immediately inside the listener — right afterwards the entry is
gone and no removal was scheduled, contradicting that removal is deferred
by a grace delay on both final events. -/
theorem c6_counterexample :
    aget (handleEvent sampleEnv true 0 aliveState
        (EventDetails.errored erroredEnd)).pending "7" = none ∧
    (handleEvent sampleEnv true 0 aliveState
        (EventDetails.errored erroredEnd)).scheduled = [] := by
  decide

/-- Claim C6 (amended): on completed, after the final snapshot is
forwarded, the entry stays in the Pending Table and its removal is
deferred (the id is appended to the pending-removal schedule), so a late
duplicate event before the delay elapses re-merges into the live entry;
on errored, the snapshot is forwarded but the entry is removed
immediately, with nothing scheduled. -/
theorem c6_grace_delay_amended (env : Env) (now : Nat) (st : CState)
    (d : EndDetails) (e : Rec)
    (h : aget st.pending d.requestId = some e)
    (hapi : isApiRequest d.rtype = true)
    (d2 : HeadersDetails)
    (h2id : d2.requestId = d.requestId)
    (h2ext : isExtensionRequest env.extId d2.initiator d2.url = false)
    (h2api : isApiRequest d2.rtype = true) :
    (aget (onCompletedH st d).pending d.requestId =
        some { e with status := d.statusCode } ∧
      (onCompletedH st d).queue =
        st.queue ++ [{ e with status := d.statusCode }] ∧
      (onCompletedH st d).scheduled = st.scheduled ++ [d.requestId] ∧
      aget (onBeforeSendHeadersH env true now (onCompletedH st d) d2).pending
          d.requestId =
        some { e with status := d.statusCode,
                      requestHeaders :=
                        hmerge e.requestHeaders (toHMap d2.headers) }) ∧
    (aget (onErrorOccurredH st d).pending d.requestId = none ∧
      (onErrorOccurredH st d).queue =
        st.queue ++ [{ e with status := 0, error := some d.error }]) := by
  have hc := onCompletedH_found st d e h hapi
  have he := onErrorOccurredH_found st d e h hapi
  have hlook : aget (onCompletedH st d).pending d.requestId =
      some { e with status := d.statusCode } := by
    rw [hc]
    show aget (aset st.pending d.requestId _) d.requestId = _
    rw [aget_aset]
    simp
  refine ⟨⟨hlook, by rw [hc], by rw [hc], ?_⟩, ?_, ?_⟩
  · unfold onBeforeSendHeadersH
    rw [h2ext, h2api]
    simp only [Bool.false_or, Bool.not_true, Bool.false_eq_true, if_false]
    rw [h2id]
    rw [aget_aset]
    rw [if_pos rfl]
    unfold getOrCreatePending
    rw [hlook]
  · rw [he]
    show aget (aerase st.pending d.requestId) d.requestId = none
    rw [aget_aerase]
    simp
  · rw [he]

theorem c6_grace_delay_amended_witness :
    (aget aliveState.pending completedEnd.requestId = some pendingRec ∧
     isApiRequest completedEnd.rtype = true ∧
     lateHeaders.requestId = completedEnd.requestId ∧
     isExtensionRequest sampleEnv.extId lateHeaders.initiator
       lateHeaders.url = false ∧
     isApiRequest lateHeaders.rtype = true) ∧
    ((aget (onCompletedH aliveState completedEnd).pending
        completedEnd.requestId =
          some { pendingRec with status := completedEnd.statusCode } ∧
      (onCompletedH aliveState completedEnd).queue =
        aliveState.queue ++
          [{ pendingRec with status := completedEnd.statusCode }] ∧
      (onCompletedH aliveState completedEnd).scheduled =
        aliveState.scheduled ++ [completedEnd.requestId] ∧
      aget (onBeforeSendHeadersH sampleEnv true 0
          (onCompletedH aliveState completedEnd) lateHeaders).pending
          completedEnd.requestId =
        some { pendingRec with
               status := completedEnd.statusCode,
               requestHeaders :=
                 hmerge pendingRec.requestHeaders
                   (toHMap lateHeaders.headers) }) ∧
    (aget (onErrorOccurredH aliveState completedEnd).pending
        completedEnd.requestId = none ∧
      (onErrorOccurredH aliveState completedEnd).queue =
        aliveState.queue ++
          [{ pendingRec with
             status := 0,
             error := some completedEnd.error }])) :=
  ⟨⟨by decide, by decide, by decide, by decide, by decide⟩,
    c6_grace_delay_amended sampleEnv 0 aliveState completedEnd pendingRec
      (by decide) (by decide) lateHeaders (by decide) (by decide)
      (by decide)⟩

/-- Claim C9: when a begin event passes the filters with recording on, the
listener always mutates the entry and forwards its snapshot, whatever the
body decode outcome; a raw first chunk decodes to text, a decoder
exception stores the fixed sentinel text instead of failing the event, and
a formData body is stored as-is. -/
theorem c9_body_capture (env : Env) (now : Nat) (st : CState)
    (d : BeginDetails)
    (hext : isExtensionRequest env.extId d.initiator d.url = false)
    (hapi : d.rtype = "xmlhttprequest") :
    onBeforeRequestH env true now st d =
      { pending := aset st.pending d.requestId (beginEntry env now st d),
        queue := st.queue ++ [beginEntry env now st d],
        scheduled := st.scheduled } ∧
    (∀ info elem rest, d.requestBody = some info →
      info.raw = some (elem :: rest) →
      env.dec elem.bytes = Except.error () →
      (beginEntry env now st d).requestBody =
        some (BodyVal.text "[Binary Data]")) ∧
    (∀ info elem rest s, d.requestBody = some info →
      info.raw = some (elem :: rest) →
      env.dec elem.bytes = Except.ok s →
      (beginEntry env now st d).requestBody = some (BodyVal.text s)) ∧
    (∀ info fd, d.requestBody = some info → info.raw = none →
      info.formData = some fd →
      (beginEntry env now st d).requestBody = some (BodyVal.form fd)) := by
  refine ⟨?_, ?_, ?_, ?_⟩
  · unfold onBeforeRequestH
    have hping : (d.rtype == "ping") = false := by rw [hapi]; decide
    have happi : isApiRequest d.rtype = true := by
      unfold isApiRequest
      rw [hapi]
      decide
    rw [hext, hping, happi]
    rw [if_neg (by simp), if_neg (by simp)]
    rfl
  · intro info elem rest hinfo hraw hdec
    unfold beginEntry captureBody
    rw [hinfo]
    simp only [hraw, hdec]
  · intro info elem rest s hinfo hraw hdec
    unfold beginEntry captureBody
    rw [hinfo]
    simp only [hraw, hdec]
  · intro info fd hinfo hraw hform
    unfold beginEntry captureBody
    rw [hinfo]
    simp only [hraw, hform]

theorem c9_body_capture_witness :
    (isExtensionRequest binaryEnv.extId rawBegin.initiator rawBegin.url =
       false ∧ rawBegin.rtype = "xmlhttprequest") ∧
    (onBeforeRequestH binaryEnv true 0 emptyCState rawBegin =
      { pending := aset emptyCState.pending rawBegin.requestId
          (beginEntry binaryEnv 0 emptyCState rawBegin),
        queue := emptyCState.queue ++
          [beginEntry binaryEnv 0 emptyCState rawBegin],
        scheduled := emptyCState.scheduled } ∧
    (∀ info elem rest, rawBegin.requestBody = some info →
      info.raw = some (elem :: rest) →
      binaryEnv.dec elem.bytes = Except.error () →
      (beginEntry binaryEnv 0 emptyCState rawBegin).requestBody =
        some (BodyVal.text "[Binary Data]")) ∧
    (∀ info elem rest s, rawBegin.requestBody = some info →
      info.raw = some (elem :: rest) →
      binaryEnv.dec elem.bytes = Except.ok s →
      (beginEntry binaryEnv 0 emptyCState rawBegin).requestBody =
        some (BodyVal.text s)) ∧
    (∀ info fd, rawBegin.requestBody = some info → info.raw = none →
      info.formData = some fd →
      (beginEntry binaryEnv 0 emptyCState rawBegin).requestBody =
        some (BodyVal.form fd))) :=
  ⟨⟨by decide, by decide⟩,
    c9_body_capture binaryEnv 0 emptyCState rawBegin (by decide) (by decide)⟩

/-- Claim C4 counterexample: a record is stored with final status 200
after a completed event, yet a subsequent errored event for the same
identifier (arriving while the entry is still within the grace window)
reverts the stored status to 0. -/
theorem c4_counterexample :
    (drain [] (handleEvent sampleEnv true 0 aliveState
        (EventDetails.completed completedEnd)).queue).map
        (fun l => (l.id, l.status)) = [("7", 200)] ∧
    (drain [] (handleEvent sampleEnv true 0
        (handleEvent sampleEnv true 0 aliveState
          (EventDetails.completed completedEnd))
        (EventDetails.errored erroredEnd)).queue).map
        (fun l => (l.id, l.status)) = [("7", 0)] := by
  decide

/-- Claim C4 (amended): a nonzero status of a live pending entry is never
reset to 0 by a begin, headers-sent, headers-received, or completed event
carrying a nonzero final code; an errored event, however, always resets
the status to 0 together with the error text (and removes the entry). -/
theorem c4_status_no_revert (env : Env) (recording : Bool) (now : Nat)
    (st : CState) (id : String) (e : Rec)
    (h : aget st.pending id = some e) (hnz : e.status ≠ 0) :
    (∀ ev e', (∀ d, ev ≠ EventDetails.errored d) →
      (∀ d, ev = EventDetails.completed d → d.statusCode ≠ 0) →
      aget (handleEvent env recording now st ev).pending id = some e' →
      e'.status ≠ 0) ∧
    (∀ d : EndDetails, d.requestId = id → isApiRequest d.rtype = true →
      (onErrorOccurredH st d).queue =
        st.queue ++ [{ e with status := 0, error := some d.error }] ∧
      aget (onErrorOccurredH st d).pending id = none) := by
  constructor
  · intro ev e' hne hcode h'
    cases ev with
    | errored d => exact absurd rfl (hne d)
    | begin d =>
      revert h'
      show aget (onBeforeRequestH env recording now st d).pending id =
        some e' → e'.status ≠ 0
      unfold onBeforeRequestH
      by_cases hfil : (isExtensionRequest env.extId d.initiator d.url ||
          d.rtype == "ping" || !isApiRequest d.rtype) = true
      · rw [if_pos hfil]
        intro h'
        rw [h] at h'
        cases h'
        exact hnz
      · rw [if_neg hfil]
        by_cases hrec : (!recording) = true
        · rw [if_pos hrec]
          intro h'
          rw [h] at h'
          cases h'
          exact hnz
        · rw [if_neg hrec]
          intro h'
          rw [aget_aset] at h'
          by_cases hid : id = d.requestId
          · rw [if_pos hid] at h'
            obtain ⟨b, hb, hbm⟩ := captureBody_eq env.dec
              { getOrCreatePending now st.pending d.requestId with
                  url := some d.url, method := some d.method,
                  rtype := some d.rtype } d.requestBody
            rw [hb] at h'
            cases h'
            show (getOrCreatePending now st.pending d.requestId).status ≠ 0
            unfold getOrCreatePending
            rw [← hid, h]
            exact hnz
          · rw [if_neg hid, h] at h'
            cases h'
            exact hnz
    | reqHeaders d =>
      revert h'
      show aget (onBeforeSendHeadersH env recording now st d).pending id =
        some e' → e'.status ≠ 0
      unfold onBeforeSendHeadersH
      by_cases hfil : (isExtensionRequest env.extId d.initiator d.url ||
          !isApiRequest d.rtype) = true
      · rw [if_pos hfil]
        intro h'
        rw [h] at h'
        cases h'
        exact hnz
      · rw [if_neg hfil]
        by_cases hrec : (!recording) = true
        · rw [if_pos hrec]
          intro h'
          rw [h] at h'
          cases h'
          exact hnz
        · rw [if_neg hrec]
          intro h'
          rw [aget_aset] at h'
          by_cases hid : id = d.requestId
          · rw [if_pos hid] at h'
            cases h'
            show (getOrCreatePending now st.pending d.requestId).status ≠ 0
            unfold getOrCreatePending
            rw [← hid, h]
            exact hnz
          · rw [if_neg hid, h] at h'
            cases h'
            exact hnz
    | respHeaders d =>
      revert h'
      show aget (onHeadersReceivedH env recording now st d).pending id =
        some e' → e'.status ≠ 0
      unfold onHeadersReceivedH
      by_cases hfil : (isExtensionRequest env.extId d.initiator d.url ||
          !isApiRequest d.rtype) = true
      · rw [if_pos hfil]
        intro h'
        rw [h] at h'
        cases h'
        exact hnz
      · rw [if_neg hfil]
        by_cases hrec : (!recording) = true
        · rw [if_pos hrec]
          intro h'
          rw [h] at h'
          cases h'
          exact hnz
        · rw [if_neg hrec]
          intro h'
          rw [aget_aset] at h'
          by_cases hid : id = d.requestId
          · rw [if_pos hid] at h'
            cases h'
            show (getOrCreatePending now st.pending d.requestId).status ≠ 0
            unfold getOrCreatePending
            rw [← hid, h]
            exact hnz
          · rw [if_neg hid, h] at h'
            cases h'
            exact hnz
    | completed d =>
      cases hl : aget st.pending d.requestId with
      | none =>
        have hstep : onCompletedH st d = st := by
          unfold onCompletedH
          rw [hl]
        rw [show handleEvent env recording now st (EventDetails.completed d) =
          onCompletedH st d from rfl, hstep, h] at h'
        cases h'
        exact hnz
      | some e0 =>
        cases hapi : isApiRequest d.rtype with
        | true =>
          have h2 : aget (aset st.pending d.requestId
              { e0 with status := d.statusCode }) id = some e' := by
            rw [show handleEvent env recording now st
                (EventDetails.completed d) = onCompletedH st d from rfl,
              onCompletedH_found st d e0 hl hapi] at h'
            exact h'
          rw [aget_aset] at h2
          by_cases hid : id = d.requestId
          · rw [if_pos hid] at h2
            cases h2
            exact hcode d rfl
          · rw [if_neg hid, h] at h2
            cases h2
            exact hnz
        | false =>
          have hstep : onCompletedH st d = st := by
            unfold onCompletedH
            rw [hl]
            simp [hapi]
          rw [show handleEvent env recording now st
              (EventDetails.completed d) = onCompletedH st d from rfl,
            hstep, h] at h'
          cases h'
          exact hnz
  · intro d hid hapi
    rw [← hid] at h
    have he := onErrorOccurredH_found st d e h hapi
    rw [he]
    refine ⟨rfl, ?_⟩
    show aget (aerase st.pending d.requestId) id = none
    rw [aget_aerase, hid]
    simp

theorem c4_status_no_revert_witness :
    (aget [("7", finalizedRec)] "7" = some finalizedRec ∧
     finalizedRec.status ≠ 0) ∧
    ((∀ ev e', (∀ d, ev ≠ EventDetails.errored d) →
      (∀ d, ev = EventDetails.completed d → d.statusCode ≠ 0) →
      aget (handleEvent sampleEnv true 0
        (CState.mk [("7", finalizedRec)] [] []) ev).pending
        "7" = some e' →
      e'.status ≠ 0) ∧
    (∀ d : EndDetails, d.requestId = "7" → isApiRequest d.rtype = true →
      (onErrorOccurredH (CState.mk [("7", finalizedRec)] [] []) d).queue =
        [] ++ [{ finalizedRec with status := 0, error := some d.error }] ∧
      aget (onErrorOccurredH
          (CState.mk [("7", finalizedRec)] [] []) d).pending
        "7" = none)) :=
  ⟨⟨by decide, by decide⟩,
    c4_status_no_revert sampleEnv true 0
      (CState.mk [("7", finalizedRec)] [] []) "7"
      finalizedRec (by decide) (by decide)⟩

theorem filter_id_one_of_remove (rules : List DNRRule) :
    (rules.filter (fun r => !([1].contains r.id))).filter
      (fun r => r.id == 1) = [] := by
  rw [List.filter_eq_nil_iff]
  intro r hr
  have := List.of_mem_filter hr
  simp at this
  simp [this]

theorem takeWhile_until_mark (l1 l2 : List Char)
    (h : ∀ c ∈ l1, (c == '?') = false) :
    (l1 ++ '?' :: l2).takeWhile (fun c => !(c == '?')) = l1 := by
  rw [List.takeWhile_append_of_pos (by intro a ha; simp [h a ha])]
  rw [List.takeWhile_cons_of_neg (by simp)]
  rw [List.append_nil]

/-- Claim C8: handling SET_REQUEST_HEADERS strips the query string from
the url and installs the built rule with fixed id 1 by a single
remove-then-add update, so exactly one rule with id 1 is active
afterwards; issuing SET_REQUEST_HEADERS twice leaves exactly the second
message's rule (hence its header list) in effect; a subsequent
CLEAR_REQUEST_HEADERS leaves zero rules with id 1. -/
theorem c8_single_override_rule (rules : List DNRRule) (url url2 : String)
    (hs hs2 : List HeaderKV) (a b : String)
    (ha : ∀ c ∈ a.toList, ¬ c = '?') :
    handleSetRequestHeaders rules url hs =
      updateSessionRules rules [1] [buildRule url hs] ∧
    (handleSetRequestHeaders rules url hs).filter (fun r => r.id == 1) =
      [buildRule url hs] ∧
    (handleSetRequestHeaders rules url hs).countP (fun r => r.id == 1) = 1 ∧
    (handleSetRequestHeaders (handleSetRequestHeaders rules url hs)
        url2 hs2).filter (fun r => r.id == 1) = [buildRule url2 hs2] ∧
    (buildRule url2 hs2).requestHeaders =
      hs2.map (fun h => { header := orFalsy h.key h.name,
                          value := h.value }) ∧
    (handleClearRequestHeaders
        (handleSetRequestHeaders rules url hs)).countP
      (fun r => r.id == 1) = 0 ∧
    (buildRule (a ++ "?" ++ b) hs).urlFilter = a := by
  have hfil : ∀ rs : List DNRRule,
      (handleSetRequestHeaders rs url hs).filter (fun r => r.id == 1) =
        [buildRule url hs] := by
    intro rs
    unfold handleSetRequestHeaders updateSessionRules
    rw [List.filter_append, filter_id_one_of_remove]
    rfl
  have hfil2 : ∀ rs : List DNRRule,
      (handleSetRequestHeaders rs url2 hs2).filter (fun r => r.id == 1) =
        [buildRule url2 hs2] := by
    intro rs
    unfold handleSetRequestHeaders updateSessionRules
    rw [List.filter_append, filter_id_one_of_remove]
    rfl
  refine ⟨rfl, hfil rules, ?_, hfil2 _, rfl, ?_, ?_⟩
  · rw [List.countP_eq_length_filter, hfil rules]
    rfl
  · rw [List.countP_eq_zero]
    intro r hr
    unfold handleClearRequestHeaders updateSessionRules at hr
    rw [List.append_nil] at hr
    have := List.of_mem_filter hr
    simp at this
    simp [this]
  · show cleanUrl (a ++ "?" ++ b) = a
    unfold cleanUrl
    have hdata : (a ++ "?" ++ b).toList = a.toList ++ '?' :: b.toList := by
      show (a ++ "?" ++ b).data = a.data ++ '?' :: b.data
      rw [String.data_append, String.data_append, List.append_assoc]
      rfl
    rw [hdata, takeWhile_until_mark a.toList b.toList
      (by intro c hc; simpa using ha c hc)]
    show String.mk a.data = a
    rfl

theorem c8_single_override_rule_witness :
    (∀ c ∈ ("https://api.x/" : String).toList, ¬ c = '?') ∧
    (handleSetRequestHeaders [] "https://api.x/"
        [{ key := some "Cookie", value := "a=b" }] =
      updateSessionRules [] [1]
        [buildRule "https://api.x/" [{ key := some "Cookie", value := "a=b" }]] ∧
    (handleSetRequestHeaders [] "https://api.x/"
        [{ key := some "Cookie", value := "a=b" }]).filter
        (fun r => r.id == 1) =
      [buildRule "https://api.x/" [{ key := some "Cookie", value := "a=b" }]] ∧
    (handleSetRequestHeaders [] "https://api.x/"
        [{ key := some "Cookie", value := "a=b" }]).countP
        (fun r => r.id == 1) = 1 ∧
    (handleSetRequestHeaders (handleSetRequestHeaders [] "https://api.x/"
        [{ key := some "Cookie", value := "a=b" }]) "https://api.y/"
        [{ name := some "Origin", value := "o" }]).filter
        (fun r => r.id == 1) =
      [buildRule "https://api.y/" [{ name := some "Origin", value := "o" }]] ∧
    (buildRule "https://api.y/"
        [{ name := some "Origin", value := "o" }]).requestHeaders =
      ([{ name := some "Origin", value := "o" }] : List HeaderKV).map
        (fun h => { header := orFalsy h.key h.name, value := h.value }) ∧
    (handleClearRequestHeaders (handleSetRequestHeaders [] "https://api.x/"
        [{ key := some "Cookie", value := "a=b" }])).countP
        (fun r => r.id == 1) = 0 ∧
    (buildRule ("https://api.x/" ++ "?" ++ "q=1")
        [{ key := some "Cookie", value := "a=b" }]).urlFilter =
      "https://api.x/") :=
  ⟨by decide,
    c8_single_override_rule [] "https://api.x/" "https://api.y/"
      [{ key := some "Cookie", value := "a=b" }]
      [{ name := some "Origin", value := "o" }]
      "https://api.x/" "q=1" (by decide)⟩

theorem applyEvD_id (dec : List Nat → Except Unit String) (e : Rec)
    (ev : EventDetails) : (applyEvD dec e ev).id = e.id := by
  cases ev with
  | begin d =>
    obtain ⟨b, hb, _⟩ := captureBody_eq dec
      { e with url := some d.url, method := some d.method,
               rtype := some d.rtype } d.requestBody
    show (captureBody dec _ _).id = e.id
    rw [hb]
  | reqHeaders d => rfl
  | respHeaders d => rfl
  | completed d => rfl
  | errored d => rfl

theorem mergeRecord_absorb (e s : Rec) (h : MonoFields e s) :
    mergeRecord e s = s := by
  obtain ⟨h1, h2, h3, h4, h5⟩ := h
  have hu : s.url.orElse (fun _ => e.url) = s.url := by
    cases hs : s.url with
    | some v => rfl
    | none =>
      cases he : e.url with
      | none => rfl
      | some w =>
        have := h1 (by rw [he]; rfl)
        rw [hs] at this
        simp at this
  have hm : s.method.orElse (fun _ => e.method) = s.method := by
    cases hs : s.method with
    | some v => rfl
    | none =>
      cases he : e.method with
      | none => rfl
      | some w =>
        have := h2 (by rw [he]; rfl)
        rw [hs] at this
        simp at this
  have hr : s.rtype.orElse (fun _ => e.rtype) = s.rtype := by
    cases hs : s.rtype with
    | some v => rfl
    | none =>
      cases he : e.rtype with
      | none => rfl
      | some w =>
        have := h3 (by rw [he]; rfl)
        rw [hs] at this
        simp at this
  have hb : s.requestBody.orElse (fun _ => e.requestBody) = s.requestBody := by
    cases hs : s.requestBody with
    | some v => rfl
    | none =>
      cases he : e.requestBody with
      | none => rfl
      | some w =>
        have := h4 (by rw [he]; rfl)
        rw [hs] at this
        simp at this
  have he : s.error.orElse (fun _ => e.error) = s.error := by
    cases hs : s.error with
    | some v => rfl
    | none =>
      cases he2 : e.error with
      | none => rfl
      | some w =>
        have := h5 (by rw [he2]; rfl)
        rw [hs] at this
        simp at this
  unfold mergeRecord
  rw [hu, hm, hr, hb, he]

theorem applyEvD_mono (dec : List Nat → Except Unit String) (e : Rec)
    (ev : EventDetails) : MonoFields e (applyEvD dec e ev) := by
  cases ev with
  | begin d =>
    obtain ⟨b, hb, hbm⟩ := captureBody_eq dec
      { e with url := some d.url, method := some d.method,
               rtype := some d.rtype } d.requestBody
    show MonoFields e (captureBody dec _ _)
    rw [hb]
    exact ⟨fun _ => rfl, fun _ => rfl, fun _ => rfl, hbm, fun h => h⟩
  | reqHeaders d =>
    exact ⟨fun h => h, fun h => h, fun h => h, fun h => h, fun h => h⟩
  | respHeaders d =>
    exact ⟨fun h => h, fun h => h, fun h => h, fun h => h, fun h => h⟩
  | completed d =>
    exact ⟨fun h => h, fun h => h, fun h => h, fun h => h, fun h => h⟩
  | errored d =>
    exact ⟨fun h => h, fun h => h, fun h => h, fun h => h, fun _ => rfl⟩

theorem applyLog_head (tail : List Rec) (e s : Rec) (hid : s.id = e.id)
    (habs : mergeRecord e s = s) : applyLog (e :: tail) s = s :: tail := by
  unfold applyLog computeNewLogs
  rw [List.findIdx?_cons, if_pos (by simp [hid])]
  show (some ((e :: tail).set 0
    (mergeRecord ((e :: tail).getD 0 s) s))).getD (e :: tail) = s :: tail
  simp only [Option.getD_some, List.getD_cons_zero, List.set_cons_zero]
  rw [habs]

theorem drain_snapshots (dec : List Nat → Except Unit String)
    (evs : List EventDetails) (e : Rec) (tail : List Rec) :
    drain (e :: tail) (snapshotsFrom dec e evs) =
      evs.foldl (applyEvD dec) e :: tail := by
  induction evs generalizing e with
  | nil => rfl
  | cons ev evs ih =>
    show drain (applyLog (e :: tail) (applyEvD dec e ev))
      (snapshotsFrom dec (applyEvD dec e ev) evs) = _
    rw [applyLog_head tail e (applyEvD dec e ev) (applyEvD_id dec e ev)
      (mergeRecord_absorb e _ (applyEvD_mono dec e ev))]
    exact ih (applyEvD dec e ev)

theorem handleEvent_pass (env : Env) (now : Nat) (st : CState)
    (ev : EventDetails) (id : String) (e : Rec)
    (hid : evRequestId ev = id)
    (hlook : aget st.pending id = some e)
    (hp : passes env.extId ev = true)
    (hne : isErrored ev = false) :
    handleEvent env true now st ev =
      { pending := aset st.pending id (applyEvD env.dec e ev),
        queue := st.queue ++ [applyEvD env.dec e ev],
        scheduled := st.scheduled ++ evScheduled ev } := by
  cases ev with
  | begin d =>
    simp only [evRequestId] at hid
    subst hid
    simp only [passes, Bool.and_eq_true, Bool.not_eq_true'] at hp
    obtain ⟨⟨hext, hping⟩, hapi⟩ := hp
    show onBeforeRequestH env true now st d = _
    unfold onBeforeRequestH
    rw [hext, hping, hapi]
    rw [if_neg (by simp), if_neg (by simp)]
    unfold getOrCreatePending
    rw [hlook]
    simp only [evScheduled, List.append_nil]
    rfl
  | reqHeaders d =>
    simp only [evRequestId] at hid
    subst hid
    simp only [passes, Bool.and_eq_true, Bool.not_eq_true'] at hp
    obtain ⟨hext, hapi⟩ := hp
    show onBeforeSendHeadersH env true now st d = _
    unfold onBeforeSendHeadersH
    rw [hext, hapi]
    rw [if_neg (by simp), if_neg (by simp)]
    unfold getOrCreatePending
    rw [hlook]
    simp only [evScheduled, List.append_nil]
    rfl
  | respHeaders d =>
    simp only [evRequestId] at hid
    subst hid
    simp only [passes, Bool.and_eq_true, Bool.not_eq_true'] at hp
    obtain ⟨hext, hapi⟩ := hp
    show onHeadersReceivedH env true now st d = _
    unfold onHeadersReceivedH
    rw [hext, hapi]
    rw [if_neg (by simp), if_neg (by simp)]
    unfold getOrCreatePending
    rw [hlook]
    simp only [evScheduled, List.append_nil]
    rfl
  | completed d =>
    simp only [evRequestId] at hid
    subst hid
    simp only [passes] at hp
    show onCompletedH st d = _
    rw [onCompletedH_found st d e hlook hp]
    rfl
  | errored d => simp [isErrored] at hne

theorem handleEvent_begin_fresh (env : Env) (now : Nat) (st : CState)
    (d : BeginDetails)
    (hlook : aget st.pending d.requestId = none)
    (hp : passes env.extId (EventDetails.begin d) = true) :
    handleEvent env true now st (EventDetails.begin d) =
      { pending := aset st.pending d.requestId
          (applyEvD env.dec (initEntry d.requestId now)
            (EventDetails.begin d)),
        queue := st.queue ++
          [applyEvD env.dec (initEntry d.requestId now)
            (EventDetails.begin d)],
        scheduled := st.scheduled } := by
  simp only [passes, Bool.and_eq_true, Bool.not_eq_true'] at hp
  obtain ⟨⟨hext, hping⟩, hapi⟩ := hp
  show onBeforeRequestH env true now st d = _
  unfold onBeforeRequestH
  rw [hext, hping, hapi]
  rw [if_neg (by simp), if_neg (by simp)]
  unfold getOrCreatePending
  rw [hlook]
  rfl

theorem runEvents_pending (env : Env) (now : Nat) (id : String)
    (evs : List EventDetails) (st : CState) (e : Rec)
    (hlook : aget st.pending id = some e)
    (hall : ∀ ev ∈ evs, passes env.extId ev = true ∧
      evRequestId ev = id ∧ isErrored ev = false) :
    aget (runEvents env now st evs).pending id =
      some (evs.foldl (applyEvD env.dec) e) ∧
    (runEvents env now st evs).queue =
      st.queue ++ snapshotsFrom env.dec e evs := by
  induction evs generalizing st e with
  | nil =>
    refine ⟨hlook, ?_⟩
    show st.queue = st.queue ++ []
    rw [List.append_nil]
  | cons ev evs ih =>
    obtain ⟨hp, hid, hne⟩ := hall ev (List.mem_cons_self ev evs)
    have hstep := handleEvent_pass env now st ev id e hid hlook hp hne
    show aget (runEvents env now (handleEvent env true now st ev) evs).pending
      id = _ ∧ (runEvents env now (handleEvent env true now st ev) evs).queue = _
    rw [hstep]
    have hlook2 : aget (aset st.pending id (applyEvD env.dec e ev)) id =
        some (applyEvD env.dec e ev) := by
      rw [aget_aset, if_pos rfl]
    have := ih (CState.mk (aset st.pending id (applyEvD env.dec e ev))
        (st.queue ++ [applyEvD env.dec e ev])
        (st.scheduled ++ evScheduled ev))
      (applyEvD env.dec e ev) hlook2
      (fun ev2 h2 => hall ev2 (List.mem_cons_of_mem ev h2))
    obtain ⟨h1, h2⟩ := this
    refine ⟨h1, ?_⟩
    rw [h2]
    show (st.queue ++ [applyEvD env.dec e ev]) ++
      snapshotsFrom env.dec (applyEvD env.dec e ev) evs =
      st.queue ++ (applyEvD env.dec e ev ::
        snapshotsFrom env.dec (applyEvD env.dec e ev) evs)
    rw [List.append_assoc]
    rfl

theorem foldl_id (dec : List Nat → Except Unit String)
    (evs : List EventDetails) (e : Rec) :
    (evs.foldl (applyEvD dec) e).id = e.id := by
  induction evs generalizing e with
  | nil => rfl
  | cons ev evs ih =>
    show (evs.foldl (applyEvD dec) (applyEvD dec e ev)).id = e.id
    rw [ih (applyEvD dec e ev), applyEvD_id]

theorem foldl_url_method (dec : List Nat → Except Unit String)
    (evs : List EventDetails) (e : Rec) (d0 : BeginDetails)
    (hu : e.url = some d0.url) (hm : e.method = some d0.method) :
    (evs.foldl (applyEvD dec) e).url = some (lastBegin d0 evs).url ∧
    (evs.foldl (applyEvD dec) e).method = some (lastBegin d0 evs).method := by
  induction evs generalizing e d0 with
  | nil => exact ⟨hu, hm⟩
  | cons ev evs ih =>
    cases ev with
    | begin d2 =>
      obtain ⟨b, hb, _⟩ := captureBody_eq dec
        { e with url := some d2.url, method := some d2.method,
                 rtype := some d2.rtype } d2.requestBody
      have h1 : (applyEvD dec e (EventDetails.begin d2)).url = some d2.url := by
        show (captureBody dec _ _).url = _
        rw [hb]
      have h2 : (applyEvD dec e (EventDetails.begin d2)).method =
          some d2.method := by
        show (captureBody dec _ _).method = _
        rw [hb]
      exact ih (applyEvD dec e (EventDetails.begin d2)) d2 h1 h2
    | reqHeaders d2 => exact ih _ d0 hu hm
    | respHeaders d2 => exact ih _ d0 hu hm
    | completed d2 => exact ih _ d0 hu hm
    | errored d2 => exact ih _ d0 hu hm

theorem foldl_status (dec : List Nat → Except Unit String)
    (evs : List EventDetails) (e : Rec)
    (hne : ∀ ev ∈ evs, isErrored ev = false) :
    (evs.foldl (applyEvD dec) e).status = lastStatus e.status evs := by
  induction evs generalizing e with
  | nil => rfl
  | cons ev evs ih =>
    have htail := fun ev2 h2 => hne ev2 (List.mem_cons_of_mem ev h2)
    cases ev with
    | begin d2 =>
      obtain ⟨b, hb, _⟩ := captureBody_eq dec
        { e with url := some d2.url, method := some d2.method,
                 rtype := some d2.rtype } d2.requestBody
      have h1 : (applyEvD dec e (EventDetails.begin d2)).status = e.status := by
        show (captureBody dec _ _).status = _
        rw [hb]
      show (evs.foldl (applyEvD dec) _).status = lastStatus e.status evs
      rw [ih _ htail, h1]
    | reqHeaders d2 => exact ih _ htail
    | respHeaders d2 => exact ih _ htail
    | completed d2 => exact ih _ htail
    | errored d2 =>
      have := hne (EventDetails.errored d2) (List.mem_cons_self _ _)
      simp [isErrored] at this

theorem foldl_reqHeaders (dec : List Nat → Except Unit String)
    (evs : List EventDetails) (e : Rec) :
    (evs.foldl (applyEvD dec) e).requestHeaders =
      reqHeaderFold e.requestHeaders evs := by
  induction evs generalizing e with
  | nil => rfl
  | cons ev evs ih =>
    cases ev with
    | begin d2 =>
      obtain ⟨b, hb, _⟩ := captureBody_eq dec
        { e with url := some d2.url, method := some d2.method,
                 rtype := some d2.rtype } d2.requestBody
      have h1 : (applyEvD dec e (EventDetails.begin d2)).requestHeaders =
          e.requestHeaders := by
        show (captureBody dec _ _).requestHeaders = _
        rw [hb]
      show (evs.foldl (applyEvD dec) _).requestHeaders =
        reqHeaderFold e.requestHeaders evs
      rw [ih _, h1]
    | reqHeaders d2 => exact ih _
    | respHeaders d2 => exact ih _
    | completed d2 => exact ih _
    | errored d2 => exact ih _

theorem foldl_respHeaders (dec : List Nat → Except Unit String)
    (evs : List EventDetails) (e : Rec) :
    (evs.foldl (applyEvD dec) e).responseHeaders =
      respHeaderFold e.responseHeaders evs := by
  induction evs generalizing e with
  | nil => rfl
  | cons ev evs ih =>
    cases ev with
    | begin d2 =>
      obtain ⟨b, hb, _⟩ := captureBody_eq dec
        { e with url := some d2.url, method := some d2.method,
                 rtype := some d2.rtype } d2.requestBody
      have h1 : (applyEvD dec e (EventDetails.begin d2)).responseHeaders =
          e.responseHeaders := by
        show (captureBody dec _ _).responseHeaders = _
        rw [hb]
      show (evs.foldl (applyEvD dec) _).responseHeaders =
        respHeaderFold e.responseHeaders evs
      rw [ih _, h1]
    | reqHeaders d2 => exact ih _
    | respHeaders d2 => exact ih _
    | completed d2 => exact ih _
    | errored d2 => exact ih _

theorem foldl_error (dec : List Nat → Except Unit String)
    (evs : List EventDetails) (e : Rec)
    (hne : ∀ ev ∈ evs, isErrored ev = false) :
    (evs.foldl (applyEvD dec) e).error = e.error := by
  induction evs generalizing e with
  | nil => rfl
  | cons ev evs ih =>
    have htail := fun ev2 h2 => hne ev2 (List.mem_cons_of_mem ev h2)
    cases ev with
    | begin d2 =>
      obtain ⟨b, hb, _⟩ := captureBody_eq dec
        { e with url := some d2.url, method := some d2.method,
                 rtype := some d2.rtype } d2.requestBody
      have h1 : (applyEvD dec e (EventDetails.begin d2)).error = e.error := by
        show (captureBody dec _ _).error = _
        rw [hb]
      show (evs.foldl (applyEvD dec) _).error = e.error
      rw [ih _ htail, h1]
    | reqHeaders d2 => exact ih _ htail
    | respHeaders d2 => exact ih _ htail
    | completed d2 => exact ih _ htail
    | errored d2 =>
      have := hne (EventDetails.errored d2) (List.mem_cons_self _ _)
      simp [isErrored] at this

/-- Claim C2: for a begin event followed by any sequence of
headers-sent, headers-received and completed events for the same
identifier (recording on, filters passed, identifier fresh in the pending
table and in the store), the record finally stored for that identifier is
exactly the fully merged pending entry: its url and method come from the
latest begin event, its status from the latest completed event (0 when
none), its two header maps are the key-wise merges of all observed header
maps, and no error is set. -/
theorem c2_final_record_union (env : Env) (now : Nat)
    (pend0 : List (String × Rec)) (sched0 : List String)
    (store0 : List Rec) (d : BeginDetails) (rest : List EventDetails)
    (hlook : aget pend0 d.requestId = none)
    (hstore : ∀ l ∈ store0, ¬ l.id = d.requestId)
    (hbegin : passes env.extId (EventDetails.begin d) = true)
    (hall : ∀ ev ∈ rest, passes env.extId ev = true ∧
      evRequestId ev = d.requestId ∧ isErrored ev = false) :
    drain store0 (runC2 env now pend0 sched0 d rest).queue =
      finalEntry env now d rest :: store0.take (MAX_LOGS - 1) ∧
    (drain store0 (runC2 env now pend0 sched0 d rest).queue).find?
        (fun l => l.id == d.requestId) = some (finalEntry env now d rest) ∧
    aget (runC2 env now pend0 sched0 d rest).pending d.requestId =
      some (finalEntry env now d rest) ∧
    (finalEntry env now d rest).url = some (lastBegin d rest).url ∧
    (finalEntry env now d rest).method = some (lastBegin d rest).method ∧
    (finalEntry env now d rest).status =
      lastStatus 0 (EventDetails.begin d :: rest) ∧
    (finalEntry env now d rest).requestHeaders =
      reqHeaderFold [] (EventDetails.begin d :: rest) ∧
    (finalEntry env now d rest).responseHeaders =
      respHeaderFold [] (EventDetails.begin d :: rest) ∧
    (finalEntry env now d rest).error = none := by
  obtain ⟨b1, hb1, _⟩ := captureBody_eq env.dec
    { initEntry d.requestId now with
        url := some d.url, method := some d.method, rtype := some d.rtype }
    d.requestBody
  have he1 : applyEvD env.dec (initEntry d.requestId now)
      (EventDetails.begin d) =
      { id := d.requestId, status := 0, timestamp := now,
        requestHeaders := [], responseHeaders := [], url := some d.url,
        method := some d.method, rtype := some d.rtype,
        requestBody := b1, error := none } := by
    show captureBody env.dec _ _ = _
    rw [hb1]
    rfl
  have hrun : runC2 env now pend0 sched0 d rest =
      runEvents env now (CState.mk
        (aset pend0 d.requestId
          (applyEvD env.dec (initEntry d.requestId now)
            (EventDetails.begin d)))
        [applyEvD env.dec (initEntry d.requestId now) (EventDetails.begin d)]
        sched0) rest := by
    unfold runC2 runEvents
    rw [List.foldl_cons, handleEvent_begin_fresh env now _ d hlook hbegin]
    rfl
  have hlook1 : aget (aset pend0 d.requestId
      (applyEvD env.dec (initEntry d.requestId now) (EventDetails.begin d)))
      d.requestId =
      some (applyEvD env.dec (initEntry d.requestId now)
        (EventDetails.begin d)) := by
    rw [aget_aset, if_pos rfl]
  obtain ⟨hpend, hqueue⟩ := runEvents_pending env now d.requestId rest
    (CState.mk
      (aset pend0 d.requestId
        (applyEvD env.dec (initEntry d.requestId now) (EventDetails.begin d)))
      [applyEvD env.dec (initEntry d.requestId now) (EventDetails.begin d)]
      sched0)
    (applyEvD env.dec (initEntry d.requestId now) (EventDetails.begin d))
    hlook1 hall
  have hfinal : finalEntry env now d rest =
      rest.foldl (applyEvD env.dec)
        (applyEvD env.dec (initEntry d.requestId now)
          (EventDetails.begin d)) := rfl
  have hid1 : (applyEvD env.dec (initEntry d.requestId now)
      (EventDetails.begin d)).id = d.requestId := by
    rw [applyEvD_id]
    rfl
  have hurl1 : (applyEvD env.dec (initEntry d.requestId now)
      (EventDetails.begin d)).url = some d.url := by
    rw [he1]
  have hq2 : (runC2 env now pend0 sched0 d rest).queue =
      applyEvD env.dec (initEntry d.requestId now) (EventDetails.begin d) ::
        snapshotsFrom env.dec
          (applyEvD env.dec (initEntry d.requestId now)
            (EventDetails.begin d)) rest := by
    rw [hrun, hqueue]
    rfl
  have hfind : store0.findIdx? (fun l => l.id ==
      (applyEvD env.dec (initEntry d.requestId now)
        (EventDetails.begin d)).id) = none := by
    rw [List.findIdx?_eq_none_iff]
    intro l hl
    rw [hid1]
    simpa using hstore l hl
  have happ : applyLog store0 (applyEvD env.dec (initEntry d.requestId now)
      (EventDetails.begin d)) =
      applyEvD env.dec (initEntry d.requestId now) (EventDetails.begin d)
        :: store0.take (MAX_LOGS - 1) := by
    unfold applyLog computeNewLogs
    rw [hfind]
    rw [if_neg (by rw [hurl1]; simp)]
    show Option.getD (some ((applyEvD env.dec (initEntry d.requestId now)
      (EventDetails.begin d) :: store0).take MAX_LOGS)) store0 =
      applyEvD env.dec (initEntry d.requestId now) (EventDetails.begin d)
        :: store0.take (MAX_LOGS - 1)
    rw [Option.getD_some]
    rfl
  have hdrain : drain store0 (runC2 env now pend0 sched0 d rest).queue =
      finalEntry env now d rest :: store0.take (MAX_LOGS - 1) := by
    rw [hq2]
    unfold drain
    rw [List.foldl_cons, happ]
    have hds := drain_snapshots env.dec rest
      (applyEvD env.dec (initEntry d.requestId now) (EventDetails.begin d))
      (store0.take (MAX_LOGS - 1))
    unfold drain at hds
    rw [hds, hfinal]
  refine ⟨hdrain, ?_, ?_, ?_, ?_, ?_, ?_, ?_, ?_⟩
  · rw [hdrain]
    rw [List.find?_cons_of_pos _ (by rw [hfinal, foldl_id, hid1]; simp)]
  · rw [hrun, hpend, hfinal]
  · rw [hfinal]
    exact (foldl_url_method env.dec rest _ d (by rw [he1]) (by rw [he1])).1
  · rw [hfinal]
    exact (foldl_url_method env.dec rest _ d (by rw [he1]) (by rw [he1])).2
  · rw [hfinal, foldl_status env.dec rest _
      (fun ev h => (hall ev h).2.2)]
    rw [show (applyEvD env.dec (initEntry d.requestId now)
      (EventDetails.begin d)).status = 0 from by rw [he1]]
    rfl
  · rw [hfinal, foldl_reqHeaders]
    rw [show (applyEvD env.dec (initEntry d.requestId now)
      (EventDetails.begin d)).requestHeaders = [] from by rw [he1]]
    rfl
  · rw [hfinal, foldl_respHeaders]
    rw [show (applyEvD env.dec (initEntry d.requestId now)
      (EventDetails.begin d)).responseHeaders = [] from by rw [he1]]
    rfl
  · rw [hfinal, foldl_error env.dec rest _
      (fun ev h => (hall ev h).2.2)]
    rw [he1]

theorem c2_final_record_union_witness :
    (aget ([] : List (String × Rec)) beginD7.requestId = none ∧
     (∀ l ∈ ([] : List Rec), ¬ l.id = beginD7.requestId) ∧
     passes sampleEnv.extId (EventDetails.begin beginD7) = true ∧
     (∀ ev ∈ specTail, passes sampleEnv.extId ev = true ∧
       evRequestId ev = beginD7.requestId ∧ isErrored ev = false)) ∧
    (drain [] (runC2 sampleEnv 0 [] [] beginD7 specTail).queue =
      finalEntry sampleEnv 0 beginD7 specTail ::
        ([] : List Rec).take (MAX_LOGS - 1) ∧
    (drain [] (runC2 sampleEnv 0 [] [] beginD7 specTail).queue).find?
        (fun l => l.id == beginD7.requestId) =
      some (finalEntry sampleEnv 0 beginD7 specTail) ∧
    aget (runC2 sampleEnv 0 [] [] beginD7 specTail).pending
      beginD7.requestId = some (finalEntry sampleEnv 0 beginD7 specTail) ∧
    (finalEntry sampleEnv 0 beginD7 specTail).url =
      some (lastBegin beginD7 specTail).url ∧
    (finalEntry sampleEnv 0 beginD7 specTail).method =
      some (lastBegin beginD7 specTail).method ∧
    (finalEntry sampleEnv 0 beginD7 specTail).status =
      lastStatus 0 (EventDetails.begin beginD7 :: specTail) ∧
    (finalEntry sampleEnv 0 beginD7 specTail).requestHeaders =
      reqHeaderFold [] (EventDetails.begin beginD7 :: specTail) ∧
    (finalEntry sampleEnv 0 beginD7 specTail).responseHeaders =
      respHeaderFold [] (EventDetails.begin beginD7 :: specTail) ∧
    (finalEntry sampleEnv 0 beginD7 specTail).error = none) :=
  ⟨⟨by decide, by decide, by decide, by decide⟩,
    c2_final_record_union sampleEnv 0 [] [] [] beginD7 specTail
      (by decide) (by decide) (by decide) (by decide)⟩

theorem hstep_frame (s1 s2 : HState) (h : HStep s1 s2) :
    (∃ t, s2.heap = s1.heap ++ t) ∧ (∃ u, s2.queue = s1.queue ++ u) := by
  cases h with
  | begin env now d =>
    unfold hBegin
    cases hg : aget s1.pending d.requestId with
    | some e =>
      exact ⟨⟨[], by rw [List.append_nil]⟩, ⟨_, rfl⟩⟩
    | none =>
      exact ⟨⟨[[], []], rfl⟩, ⟨_, rfl⟩⟩
  | reqHeaders now d =>
    unfold hReqHeaders
    cases hg : aget s1.pending d.requestId with
    | some e =>
      exact ⟨⟨_, rfl⟩, ⟨_, rfl⟩⟩
    | none =>
      exact ⟨⟨_, by rw [List.append_assoc]⟩, ⟨_, rfl⟩⟩
  | respHeaders now d =>
    unfold hRespHeaders
    cases hg : aget s1.pending d.requestId with
    | some e =>
      exact ⟨⟨_, rfl⟩, ⟨_, rfl⟩⟩
    | none =>
      exact ⟨⟨_, by rw [List.append_assoc]⟩, ⟨_, rfl⟩⟩
  | completed d =>
    cases hg : aget s1.pending d.requestId with
    | none =>
      have heq : hCompleted s1 d = s1 := by
        unfold hCompleted
        rw [hg]
      rw [heq]
      exact ⟨⟨[], by rw [List.append_nil]⟩, ⟨[], by rw [List.append_nil]⟩⟩
    | some e =>
      cases hapi : isApiRequest d.rtype with
      | true =>
        have heq : hCompleted s1 d =
            { heap := s1.heap,
              pending := aset s1.pending d.requestId
                { e with status := d.statusCode },
              queue := s1.queue ++ [{ e with status := d.statusCode }] } := by
          unfold hCompleted
          rw [hg]
          simp [hapi]
        rw [heq]
        exact ⟨⟨[], by rw [List.append_nil]⟩, ⟨_, rfl⟩⟩
      | false =>
        have heq : hCompleted s1 d = s1 := by
          unfold hCompleted
          rw [hg]
          simp [hapi]
        rw [heq]
        exact ⟨⟨[], by rw [List.append_nil]⟩, ⟨[], by rw [List.append_nil]⟩⟩
  | errored d =>
    cases hg : aget s1.pending d.requestId with
    | none =>
      have heq : hErrored s1 d = s1 := by
        unfold hErrored
        rw [hg]
      rw [heq]
      exact ⟨⟨[], by rw [List.append_nil]⟩, ⟨[], by rw [List.append_nil]⟩⟩
    | some e =>
      cases hapi : isApiRequest d.rtype with
      | true =>
        have heq : hErrored s1 d =
            { heap := s1.heap,
              pending := aerase s1.pending d.requestId,
              queue := s1.queue ++
                [{ e with status := 0, error := some d.error }] } := by
          unfold hErrored
          rw [hg]
          simp [hapi]
        rw [heq]
        exact ⟨⟨[], by rw [List.append_nil]⟩, ⟨_, rfl⟩⟩
      | false =>
        have heq : hErrored s1 d = s1 := by
          unfold hErrored
          rw [hg]
          simp [hapi]
        rw [heq]
        exact ⟨⟨[], by rw [List.append_nil]⟩, ⟨[], by rw [List.append_nil]⟩⟩
  | purge requestId =>
    refine ⟨⟨[], ?_⟩, ⟨[], ?_⟩⟩
    · rw [List.append_nil]
      rfl
    · rw [List.append_nil]
      rfl

theorem hreach_frame (s s' : HState) (h : HReach s s') :
    (∃ t, s'.heap = s.heap ++ t) ∧ (∃ u, s'.queue = s.queue ++ u) := by
  induction h with
  | refl =>
    exact ⟨⟨[], by rw [List.append_nil]⟩, ⟨[], by rw [List.append_nil]⟩⟩
  | tail hr hstep ih =>
    obtain ⟨⟨t1, ht1⟩, ⟨u1, hu1⟩⟩ := ih
    obtain ⟨⟨t2, ht2⟩, ⟨u2, hu2⟩⟩ := hstep_frame _ _ hstep
    exact ⟨⟨t1 ++ t2, by rw [ht2, ht1, List.append_assoc]⟩,
      ⟨u1 ++ u2, by rw [hu2, hu1, List.append_assoc]⟩⟩

/-- Claim C10: `saveLog` enqueues a shallow copy and the header-phase
listeners rebind a fresh map object instead of mutating the old one, so
every snapshot already in the save queue is untouched by later event
processing: after any sequence of later listener invocations the snapshot
is still queued and resolves (scalars plus dereferenced header maps) to
exactly the record it had when enqueued. -/
theorem c10_snapshot_isolation (s s' : HState) (q : EntryObj)
    (hwf : ∀ x ∈ s.queue,
      x.reqHRef < s.heap.length ∧ x.respHRef < s.heap.length)
    (hreach : HReach s s') (hq : q ∈ s.queue) :
    q ∈ s'.queue ∧ resolveEntry s'.heap q = resolveEntry s.heap q := by
  obtain ⟨⟨t, ht⟩, ⟨u, hu⟩⟩ := hreach_frame s s' hreach
  obtain ⟨h1, h2⟩ := hwf q hq
  refine ⟨?_, ?_⟩
  · rw [hu]
    exact List.mem_append_left u hq
  · have e1 : (s.heap ++ t).getD q.reqHRef [] = s.heap.getD q.reqHRef [] := by
      rw [List.getD_eq_getElem?_getD, List.getD_eq_getElem?_getD,
        List.getElem?_append_left h1]
    have e2 : (s.heap ++ t).getD q.respHRef [] =
        s.heap.getD q.respHRef [] := by
      rw [List.getD_eq_getElem?_getD, List.getD_eq_getElem?_getD,
        List.getElem?_append_left h2]
    unfold resolveEntry heapGet
    rw [ht, e1, e2]

theorem c10_snapshot_isolation_witness :
    ((∀ x ∈ (hBegin sampleEnv 0 (HState.mk [] [] []) beginD7).queue,
        x.reqHRef < (hBegin sampleEnv 0 (HState.mk [] [] []) beginD7).heap.length ∧
        x.respHRef < (hBegin sampleEnv 0 (HState.mk [] [] []) beginD7).heap.length) ∧
      HReach (hBegin sampleEnv 0 (HState.mk [] [] []) beginD7)
        (hReqHeaders 0 (hBegin sampleEnv 0 (HState.mk [] [] []) beginD7)
          authHeaders) ∧
      snapshotObj7 ∈ (hBegin sampleEnv 0 (HState.mk [] [] []) beginD7).queue) ∧
    (snapshotObj7 ∈ (hReqHeaders 0
        (hBegin sampleEnv 0 (HState.mk [] [] []) beginD7) authHeaders).queue ∧
      resolveEntry (hReqHeaders 0
          (hBegin sampleEnv 0 (HState.mk [] [] []) beginD7)
          authHeaders).heap snapshotObj7 =
        resolveEntry (hBegin sampleEnv 0
          (HState.mk [] [] []) beginD7).heap snapshotObj7) :=
  ⟨⟨by decide,
    Relation.ReflTransGen.single
      (HStep.reqHeaders (hBegin sampleEnv 0 (HState.mk [] [] []) beginD7)
        0 authHeaders),
    show snapshotObj7 ∈ [snapshotObj7] from List.mem_cons_self _ _⟩,
    c10_snapshot_isolation
      (hBegin sampleEnv 0 (HState.mk [] [] []) beginD7)
      (hReqHeaders 0 (hBegin sampleEnv 0 (HState.mk [] [] []) beginD7)
        authHeaders)
      snapshotObj7 (by decide)
      (Relation.ReflTransGen.single
        (HStep.reqHeaders (hBegin sampleEnv 0 (HState.mk [] [] []) beginD7)
          0 authHeaders))
      (show snapshotObj7 ∈ [snapshotObj7] from List.mem_cons_self _ _)⟩

end XApi

